import Mathlib

/-! EmailAssistAI donation workflow (`server.js`)

A shallow embedding of the donor registry (`loadRegistry`, `saveRegistry`,
`upsertDonor`), of the confirmation mail (`getPartialSoulmark`,
`sendDonationEmail`) and of the `POST /api/donation-email` handler, followed by
the properties established about them.

Modelling conventions
* A JavaScript string is the list of its UTF-16 code units (`JsStr`), so that
  `.length` and `.slice` count what JavaScript counts.
* A value read from or written to the registry file is a JSON value (`Json`);
  `undefined` is `none` in `Option Json`.  A number is a finite value, kept as
  an exact rational, or one of `Infinity`, `-Infinity` and `NaN`.
* The runtime built-ins whose tables are not part of the repository
  (`String.prototype.toLowerCase`, number formatting) are parameters (`Host`).
* Effects are explicit: every operation maps a `World` to a result and a new
  `World`; a `throw` is `Except.error`.
-/

namespace EmailAssist

/-! ## Strings -/

/-- A JavaScript string: its UTF-16 code units. -/
abbrev JsStr := List Nat

/-- UTF-16 code units of one Unicode scalar value. -/
def utf16Char (c : Char) : List Nat :=
  if c.toNat < 65536 then [c.toNat]
  else [55296 + (c.toNat - 65536) / 1024, 56320 + (c.toNat - 65536) % 1024]

/-- The JavaScript string written by a literal. -/
def utf16 (s : String) : JsStr :=
  s.toList.flatMap utf16Char

/-- `String.prototype.slice(start, end)` with both arguments given as integers. -/
def jsSlice (s : JsStr) (start stop : Int) : JsStr :=
  let len : Int := s.length
  let lo : Int := if start < 0 then max (len + start) 0 else min start len
  let hi : Int := if stop < 0 then max (len + stop) 0 else min stop len
  (s.drop lo.toNat).take (hi - lo).toNat

/-- `String.prototype.slice(start)`: the end defaults to the length. -/
def jsSliceFrom (s : JsStr) (start : Int) : JsStr :=
  jsSlice s start s.length

/-- The one-character string `"…"` (U+2026). -/
def ellipsis : JsStr := utf16 "…"

/-- Truthiness of an optional string: absent and `""` are falsy. -/
def strTruthy : Option JsStr → Bool
  | none => false
  | some s => !s.isEmpty

/-! ## Soulmark masking (`server.js` 157-162) -/

/-- Masking as `getPartialSoulmark` computes it. -/
def getPartialSoulmark (fullSoulmark : Option JsStr) : JsStr :=
  match fullSoulmark with
  | none => utf16 "N/A"
  | some s =>
    if s.isEmpty || decide (s.length < 10) then
      (if s.isEmpty then utf16 "N/A" else s)
    else
      jsSlice s 0 6 ++ ellipsis ++ jsSliceFrom s ((s.length : Int) - 4)

/-- Reference masking, following the specification's wording: absent or empty
gives "N/A", fewer than 10 characters is shown verbatim, otherwise the first 6
characters, an ellipsis marker and the last 4 characters. -/
def maskReference (soulmark : Option JsStr) : JsStr :=
  match soulmark with
  | none => utf16 "N/A"
  | some [] => utf16 "N/A"
  | some (c :: cs) =>
    if (c :: cs).length < 10 then c :: cs
    else (c :: cs).take 6 ++ utf16 "…" ++ ((c :: cs).reverse.take 4).reverse

/-! ## JSON values and the fragment of JavaScript the registry code uses -/

/-- A JavaScript number: a finite value, kept as an exact rational (negative
zero is zero, rounding is not modelled), or a non-finite one. `JSON.parse`
gives `Infinity` for a literal too large for a double, such as `1e400`. -/
inductive JsNum where
  | fin (q : Rat)
  | posInf
  | negInf
  | nan
  deriving DecidableEq

/-- A value in memory, as `JSON.parse` returns it from a request body or from
the registry file and as the code builds it. An object is the list of its own
properties in insertion order. -/
inductive Json where
  | null
  | bool (b : Bool)
  | num (x : JsNum)
  | str (s : JsStr)
  | arr (xs : List Json)
  | obj (props : List (JsStr × Json))

/-- The errors a step can throw. -/
inductive JsErr where
  | typeError
  | syntaxError
  | ioError
  | sendError
  deriving DecidableEq, Repr

/-- The conversion to boolean of a JSON value. -/
def Json.truthy : Json → Bool
  | .null => false
  | .bool b => b
  | .num (.fin q) => decide (q ≠ 0)
  | .num .posInf => true
  | .num .negInf => true
  | .num .nan => false
  | .str s => !s.isEmpty
  | .arr _ => true
  | .obj _ => true

/-- The conversion to boolean of a value that may be `undefined`. -/
def truthy : Option Json → Bool
  | none => false
  | some v => v.truthy

/-- The operator `a || b`. -/
def jsOr (a b : Option Json) : Option Json :=
  if truthy a then a else b

/-- An optional string as a value. -/
def strVal (s : Option JsStr) : Option Json :=
  s.map Json.str

/-- Own property of an object, `undefined` when there is none. -/
def lookupProp (key : JsStr) : List (JsStr × Json) → Option Json
  | [] => none
  | (k, v) :: ps => if k = key then some v else lookupProp key ps

/-- Assignment of a defined value to a property: an existing property keeps its
place, a new one goes last. -/
def assignProp (key : JsStr) (value : Json) : List (JsStr × Json) → List (JsStr × Json)
  | [] => [(key, value)]
  | (k, v) :: ps => if k = key then (k, value) :: ps else (k, v) :: assignProp key value ps

/-- Removal of a property. -/
def removeProp (key : JsStr) : List (JsStr × Json) → List (JsStr × Json)
  | [] => []
  | (k, v) :: ps => if k = key then removeProp key ps else (k, v) :: removeProp key ps

/-- The statement `o.key = value`. A property holding `undefined` is represented
as an absent one: reading either gives `undefined` and `JSON.stringify` skips
both, and the code observes properties in no other way. -/
def setProp (key : JsStr) (value : Option Json) (props : List (JsStr × Json)) :
    List (JsStr × Json) :=
  match value with
  | some v => assignProp key v props
  | none => removeProp key props

/-- An object literal; fields whose value is `undefined` are left out (see `setProp`). -/
def objectLiteral (fields : List (JsStr × Option Json)) : Json :=
  .obj (fields.filterMap fun f => f.2.map fun v => (f.1, v))

/-- The expression `v.key` for the keys the code reads (`email`, `name`,
`donations`), which no prototype provides: a TypeError on `null`, the own
property on an object, `undefined` on a boolean, number, string or array. -/
def getProp (v : Json) (key : JsStr) : Except JsErr (Option Json) :=
  match v with
  | .null => .error .typeError
  | .obj props => .ok (lookupProp key props)
  | _ => .ok none

/-- Built-ins of the runtime whose tables are not repository code. -/
structure Host where
  /-- `String.prototype.toLowerCase`. -/
  toLowerCase : JsStr → JsStr
  /-- `Number.prototype.toString`. -/
  numberToString : JsNum → JsStr
  /-- The string a template literal gives an array or an object, or the TypeError it throws. -/
  objectToString : Json → Except JsErr JsStr

/-- The conversion to string a template literal applies. -/
def toStringJs (host : Host) : Option Json → Except JsErr JsStr
  | none => .ok (utf16 "undefined")
  | some .null => .ok (utf16 "null")
  | some (.bool true) => .ok (utf16 "true")
  | some (.bool false) => .ok (utf16 "false")
  | some (.num x) => .ok (host.numberToString x)
  | some (.str s) => .ok s
  | some (.arr xs) => host.objectToString (.arr xs)
  | some (.obj ps) => host.objectToString (.obj ps)

/-- The environment variables the modelled code reads (`server.js` 26-58). -/
structure Env where
  CAMPAIGN_NAME : Option JsStr
  DASHBOARD_URL : Option JsStr
  ALIAS_SUPPORT : Option JsStr
  SMTP_USER : Option JsStr

/-- The constant `campaignName = CAMPAIGN_NAME || "Jamaica We Rise"`. -/
def campaignName (env : Env) : JsStr :=
  if strTruthy env.CAMPAIGN_NAME then env.CAMPAIGN_NAME.getD [] else utf16 "Jamaica We Rise"

/-- The constant `dashboardUrl`. -/
def dashboardUrl (env : Env) : JsStr :=
  if strTruthy env.DASHBOARD_URL then env.DASHBOARD_URL.getD []
  else utf16 "https://jamaica-we-rise.vercel.app/iascendai-auth.html"

/-- The body of a donation request, destructured as the handler does. As in
the body schema of the endpoint, `email` and `soulmark` are strings when
present (the code calls string methods on them); the other fields, which are
only tested, printed and stored, are any JSON value or absent. -/
structure Donation where
  name : Option Json
  email : Option JsStr
  soulmark : Option JsStr
  amount : Option Json
  currency : Option Json
  sessionId : Option Json

/-! ## The world: registry file and mail transport -/

/-- The text of the registry file, identified by what the code observes of it:
`blank` is a text whose `trim()` is empty, `notJson` a non-blank text on which
`JSON.parse` throws, `json v` a text that `JSON.parse` maps to `v` (so `"[]"`
is `json (arr [])`, `"{}"` is `json (obj [])`, `"42"` is `json (num (fin 42))`
and `"1e400"` is `json (num posInf)`). -/
inductive FileText where
  | blank
  | notJson
  | json (v : Json)

/-- The test `!text.trim()`. -/
def trimIsEmpty : FileText → Bool
  | .blank => true
  | _ => false

/-- The call `JSON.parse(text)`. -/
def jsonParse : FileText → Except JsErr Json
  | .blank => .error .syntaxError
  | .notJson => .error .syntaxError
  | .json v => .ok v

mutual
/-- The value that `JSON.parse` reads back from the text `JSON.stringify` writes
for a value: a non-finite number is written as `null`, everything else as it is. -/
def Json.stored : Json → Json
  | .null => .null
  | .bool b => .bool b
  | .num (.fin q) => .num (.fin q)
  | .num .posInf => .null
  | .num .negInf => .null
  | .num .nan => .null
  | .str s => .str s
  | .arr xs => .arr (storedList xs)
  | .obj props => .obj (storedProps props)
/-- The elements of an array as `Json.stored` gives them. -/
def storedList : List Json → List Json
  | [] => []
  | x :: xs => x.stored :: storedList xs
/-- The properties of an object as `Json.stored` gives them. -/
def storedProps : List (JsStr × Json) → List (JsStr × Json)
  | [] => []
  | (k, v) :: props => (k, v.stored) :: storedProps props
end

mutual
/-- The value holds no non-finite number. -/
def Json.allFinite : Json → Bool
  | .null => true
  | .bool _ => true
  | .num (.fin _) => true
  | .num .posInf => false
  | .num .negInf => false
  | .num .nan => false
  | .str _ => true
  | .arr xs => allFiniteList xs
  | .obj props => allFiniteProps props
/-- No element holds a non-finite number. -/
def allFiniteList : List Json → Bool
  | [] => true
  | x :: xs => x.allFinite && allFiniteList xs
/-- No property holds a non-finite number. -/
def allFiniteProps : List (JsStr × Json) → Bool
  | [] => true
  | (_, v) :: props => v.allFinite && allFiniteProps props
end

/-- The call `JSON.stringify(reg, null, 2)`: the text written, which
`JSON.parse` maps to `reg.stored`. -/
def jsonStringify (reg : Json) : FileText :=
  .json reg.stored

/-- The literal `"[]"` written on a reset. -/
def emptyArrayText : FileText :=
  .json (.arr [])

/-- The message handed to `transporter.sendMail`. -/
structure Mail where
  fromLabel : JsStr
  toAddr : Option JsStr
  subject : JsStr
  html : JsStr

/-- State of the outside world. `file` is the registry file (`none`: it does not
exist). The k-th file-system call fails when `fsFails k`, the k-th call of
`sendMail` is rejected when `mailFails k`; `fsCalls` and `mailCalls` count the
calls made so far and `outbox` holds the accepted mails. A failed write leaves
the file as it was. -/
structure World where
  file : Option FileText
  fsCalls : Nat
  fsFails : Nat → Bool
  mailCalls : Nat
  mailFails : Nat → Bool
  outbox : List Mail

/-- One more file-system call has been made. -/
def fsTick (w : World) : World :=
  { w with fsCalls := w.fsCalls + 1 }

/-- The call `fs.ensureFile(registryPath)`: creates the file, empty, when it is missing. -/
def ensureFile (w : World) : Except JsErr Unit × World :=
  if w.fsFails w.fsCalls then (.error .ioError, fsTick w)
  else (.ok (), { fsTick w with file := some (w.file.getD .blank) })

/-- The call `fs.readFile(registryPath, "utf8")`. -/
def readFile (w : World) : Except JsErr FileText × World :=
  if w.fsFails w.fsCalls then (.error .ioError, fsTick w)
  else
    match w.file with
    | some text => (.ok text, fsTick w)
    | none => (.error .ioError, fsTick w)

/-- The call `fs.writeFile(registryPath, text, "utf8")`. -/
def writeFile (text : FileText) (w : World) : Except JsErr Unit × World :=
  if w.fsFails w.fsCalls then (.error .ioError, fsTick w)
  else (.ok (), { fsTick w with file := some text })

/-- The call `transporter.sendMail(mail)`. -/
def sendMail (mail : Mail) (w : World) : Except JsErr Unit × World :=
  if w.mailFails w.mailCalls then (.error .sendError, { w with mailCalls := w.mailCalls + 1 })
  else (.ok (), { w with mailCalls := w.mailCalls + 1, outbox := w.outbox ++ [mail] })

/-! ## Registry store (`server.js` 71-93) -/

/-- The `try` block of `loadRegistry`. -/
def loadRegistryTry (w : World) : Except JsErr Json × World :=
  match ensureFile w with
  | (.error e, w1) => (.error e, w1)
  | (.ok _, w1) =>
    match readFile w1 with
    | (.error e, w2) => (.error e, w2)
    | (.ok text, w2) =>
      if trimIsEmpty text then
        match writeFile emptyArrayText w2 with
        | (.error e, w3) => (.error e, w3)
        | (.ok _, w3) => (.ok (.arr []), w3)
      else (jsonParse text, w2)

/-- The `catch` block of `loadRegistry`: it writes `"[]"`, outside any `try`,
and returns `[]`. -/
def loadRegistryCatch (w : World) : Except JsErr Json × World :=
  match writeFile emptyArrayText w with
  | (.error e, w1) => (.error e, w1)
  | (.ok _, w1) => (.ok (.arr []), w1)

/-- The function `loadRegistry`: the `try` block, and on any error the `catch` block. -/
def loadRegistry (w : World) : Except JsErr Json × World :=
  match loadRegistryTry w with
  | (.ok registry, w1) => (.ok registry, w1)
  | (.error _, w1) => loadRegistryCatch w1

/-- The function `saveRegistry`: a failed write is caught and logged. -/
def saveRegistry (reg : Json) (w : World) : Except JsErr Unit × World :=
  match writeFile (jsonStringify reg) w with
  | (.ok _, w1) => (.ok (), w1)
  | (.error _, w1) => (.ok (), w1)

/-! ## Donor upsert (`server.js` 95-130) -/

/-- The callback of `registry.find`:
`d.email.toLowerCase() === email.toLowerCase()`. Calling `toLowerCase` throws a
TypeError on anything but a string. -/
def emailMatches (host : Host) (email : Option JsStr) (d : Json) : Except JsErr Bool :=
  match getProp d (utf16 "email") with
  | .error e => .error e
  | .ok (some (.str s)) =>
    match email with
    | some e => .ok (decide (host.toLowerCase s = host.toLowerCase e))
    | none => .error .typeError
  | .ok _ => .error .typeError

/-- The call `registry.find(callback)` on the elements of an array: the index
of the first element the callback accepts (the code keeps a reference to that
element), `none` for `undefined`. -/
def findDonor (host : Host) (email : Option JsStr) : List Json → Except JsErr (Option Nat)
  | [] => .ok none
  | d :: ds =>
    match emailMatches host email d with
    | .error e => .error e
    | .ok true => .ok (some 0)
    | .ok false =>
      match findDonor host email ds with
      | .error e => .error e
      | .ok r => .ok (r.map fun i => i + 1)

/-- The donor created when `find` returns `undefined` (lines 108-114). -/
def newDonor (d : Donation) (now : JsStr) : Json :=
  objectLiteral [
    (utf16 "email", strVal d.email),
    (utf16 "name", jsOr d.name (some (.str []))),
    (utf16 "donations", some (.arr [])),
    (utf16 "createdAt", some (.str now)),
    (utf16 "lastContact", some (.str now))]

/-- The donation event pushed on the donor (lines 120-127). -/
def donationEvent (env : Env) (d : Donation) (now : JsStr) : Json :=
  objectLiteral [
    (utf16 "campaign", some (.str (campaignName env))),
    (utf16 "amount", d.amount),
    (utf16 "currency", d.currency),
    (utf16 "soulmark", strVal d.soulmark),
    (utf16 "sessionId", d.sessionId),
    (utf16 "timestamp", some (.str now))]

/-- Lines 118-127 on the donor object: `donor.name = name || donor.name`,
`donor.lastContact = now`, `donor.donations.push(event)`. The `push` throws a
TypeError unless `donor.donations` is an array. -/
def touchDonor (env : Env) (d : Donation) (now : JsStr) (donor : Json) : Except JsErr Json :=
  match donor with
  | .obj props =>
    let props1 := setProp (utf16 "name") (jsOr d.name (lookupProp (utf16 "name") props)) props
    let props2 := setProp (utf16 "lastContact") (some (.str now)) props1
    match lookupProp (utf16 "donations") props2 with
    | some (.arr events) =>
      .ok (.obj (setProp (utf16 "donations") (some (.arr (events ++ [donationEvent env d now]))) props2))
    | _ => .error .typeError
  | _ => .error .typeError

/-- Lines 106-127 of `upsertDonor` on the loaded registry: the registry as it is
handed to `saveRegistry`, or the error thrown. `registry.find` is a function
only when the registry is an array. -/
def upsertRegistry (env : Env) (host : Host) (d : Donation) (now : JsStr) (registry : Json) :
    Except JsErr Json :=
  match registry with
  | .arr donors =>
    match findDonor host d.email donors with
    | .error e => .error e
    | .ok found =>
      let donors1 := if found.isSome then donors else donors ++ [newDonor d now]
      let i := found.getD donors.length
      match donors1[i]? with
      | some donor =>
        match touchDonor env d now donor with
        | .error e => .error e
        | .ok donor1 => .ok (.arr (donors1.set i donor1))
      | none => .error .typeError
  | _ => .error .typeError

/-- The function `upsertDonor`; `now` is the value of `new Date().toISOString()`. -/
def upsertDonor (env : Env) (host : Host) (d : Donation) (now : JsStr) (w : World) :
    Except JsErr Unit × World :=
  match loadRegistry w with
  | (.error e, w1) => (.error e, w1)
  | (.ok registry, w1) =>
    match upsertRegistry env host d now registry with
    | .error e => (.error e, w1)
    | .ok registry1 => saveRegistry registry1 w1

/-! ## Donation email (`server.js` 164-199) -/

/-- A template substitution of an optional string: `undefined` prints as "undefined". -/
def templateStr : Option JsStr → JsStr
  | some s => s
  | none => utf16 "undefined"

/-- The label `fromLabel`, with `ALIAS_SUPPORT || SMTP_USER` inside. -/
def fromLabel (env : Env) : JsStr :=
  campaignName env ++ utf16 " <"
    ++ templateStr (if strTruthy env.ALIAS_SUPPORT then env.ALIAS_SUPPORT else env.SMTP_USER)
    ++ utf16 ">"

/-- The inner template, present when `amount` is truthy. -/
def amountBlock (host : Host) (amount currency : Option Json) : Except JsErr JsStr :=
  if truthy amount then
    match toStringJs host amount with
    | .error e => .error e
    | .ok amountText =>
      match toStringJs host (jsOr currency (some (.str (utf16 "USD")))) with
      | .error e => .error e
      | .ok currencyText =>
        .ok (utf16 "<p><strong>Amount:</strong> " ++ amountText ++ utf16 " " ++ currencyText
          ++ utf16 "</p>")
  else .ok []

/-- The template `html` around its substitutions. -/
def htmlTemplate (partialMark amountPart dashboard campaign : JsStr) : JsStr :=
  utf16 "\n    <p>Thank you for your donation. Your contribution has been verified successfully.</p>\n\n    <p>A unique SoulMark has been created for this transaction.<br>\n    For your security, only a portion is shown:</p>\n\n    <p><strong>SoulMark (partial):</strong> "
    ++ partialMark
    ++ utf16 "</p>\n\n    "
    ++ amountPart
    ++ utf16 "\n\n    <p>To activate your full SoulMark and access your donation dashboard, click below:</p>\n\n    <p><a href=\""
    ++ dashboard
    ++ utf16 "\">\n      <strong>Access Your Dashboard</strong>\n    </a></p>\n\n    <p>"
    ++ campaign
    ++ utf16 " × iAscendAi</p>\n  "

/-- The `html` of the mail, or the error thrown while composing it. -/
def composeHtml (env : Env) (host : Host) (d : Donation) : Except JsErr JsStr :=
  match amountBlock host d.amount d.currency with
  | .error e => .error e
  | .ok amountPart =>
    .ok (htmlTemplate (getPartialSoulmark d.soulmark) amountPart (dashboardUrl env) (campaignName env))

/-- The function `sendDonationEmail`: composes the mail and returns what
`transporter.sendMail` returns. -/
def sendDonationEmail (env : Env) (host : Host) (d : Donation) (w : World) :
    Except JsErr Unit × World :=
  match composeHtml env host d with
  | .error e => (.error e, w)
  | .ok html =>
    sendMail
      { fromLabel := fromLabel env
        toAddr := d.email
        subject := utf16 "Thank You — Your Donation Has Been Received"
        html := html } w

/-! ## The handler of `POST /api/donation-email` (`server.js` 202-221) -/

/-- What the handler sends back. -/
structure Response where
  status : Nat
  body : Json

/-- The handler: validation, then `sendDonationEmail`, then `upsertDonor`; any
error thrown by either is caught and answered with 500. -/
def donationEmailHandler (env : Env) (host : Host) (now : JsStr) (d : Donation) (w : World) :
    Response × World :=
  if !strTruthy d.email || !strTruthy d.soulmark then
    ({ status := 400
       body := .obj [(utf16 "error", .str (utf16 "email and soulmark are required fields."))] }, w)
  else
    match sendDonationEmail env host d w with
    | (.error _, w1) =>
      ({ status := 500
         body := .obj [(utf16 "error", .str (utf16 "Failed to send donation email."))] }, w1)
    | (.ok _, w1) =>
      match upsertDonor env host d now w1 with
      | (.error _, w2) =>
        ({ status := 500
           body := .obj [(utf16 "error", .str (utf16 "Failed to send donation email."))] }, w2)
      | (.ok _, w2) =>
        ({ status := 200, body := .obj [(utf16 "ok", .bool true)] }, w2)

/-! ## Vocabulary of the statements -/

/-- The stored email of a donor record: the `email` property of an object, when it is a string. -/
def donorEmail : Json → Option JsStr
  | .obj props =>
    match lookupProp (utf16 "email") props with
    | some (.str s) => some s
    | _ => none
  | _ => none

/-- The stored donations of a donor record: the `donations` property of an object, when it is an array. -/
def donorDonations : Json → Option (List Json)
  | .obj props =>
    match lookupProp (utf16 "donations") props with
    | some (.arr events) => some events
    | _ => none
  | _ => none

/-- A property of a record, `undefined` when the record is no object or has no such property. -/
def donorField (key : JsStr) : Json → Option Json
  | .obj props => lookupProp key props
  | _ => none

/-- A donor record of the data model, as far as `upsertDonor` relies on it: an
object with a string `email` and an array `donations`. -/
def isDonorRecord (d : Json) : Bool :=
  (donorEmail d).isSome && (donorDonations d).isSome

/-- The donor's email equals `email` after lower-casing both. -/
def matchesEmail (host : Host) (email : JsStr) (d : Json) : Prop :=
  ∃ s, donorEmail d = some s ∧ host.toLowerCase s = host.toLowerCase email

/-- No two donors of the registry have emails equal after lower-casing. -/
def UniqueEmails (host : Host) (donors : List Json) : Prop :=
  donors.Pairwise fun a b =>
    (donorEmail a).map host.toLowerCase ≠ (donorEmail b).map host.toLowerCase

/-- Every file-system call succeeds. -/
def FsWorks (w : World) : Prop :=
  ∀ k, w.fsFails k = false

/-! ## Concrete inputs for the worked examples -/

/-- Lower-casing of the ASCII letters, other code units unchanged; it agrees
with `String.prototype.toLowerCase` on ASCII text. -/
def asciiLower (s : JsStr) : JsStr :=
  s.map fun c => if 65 ≤ c ∧ c ≤ 90 then c + 32 else c

/-- Decimal digits of a natural number. -/
def natDigits (n : Nat) : JsStr :=
  (Nat.toDigits 10 n).map Char.toNat

/-- A host for the worked examples. It is the runtime on what the examples use:
ASCII text, integers, and plain objects in templates. -/
def asciiHost : Host where
  toLowerCase := asciiLower
  numberToString := fun x =>
    match x with
    | .fin q => if q < 0 then utf16 "-" ++ natDigits q.num.natAbs else natDigits q.num.natAbs
    | .posInf => utf16 "Infinity"
    | .negInf => utf16 "-Infinity"
    | .nan => utf16 "NaN"
  objectToString := fun _ => .ok (utf16 "[object Object]")

/-- No environment variable set: the defaults of `server.js` apply. -/
def defaultEnv : Env where
  CAMPAIGN_NAME := none
  DASHBOARD_URL := none
  ALIAS_SUPPORT := none
  SMTP_USER := none

/-- A world whose registry file holds `file`, with a working disk and a working
mail transport, and nothing sent so far. -/
def worldWith (file : Option FileText) : World where
  file := file
  fsCalls := 0
  fsFails := fun _ => false
  mailCalls := 0
  mailFails := fun _ => false
  outbox := []

/-- A donation request with only `email` and `soulmark`. -/
def donationOf (email soulmark : String) : Donation where
  name := none
  email := some (utf16 email)
  soulmark := some (utf16 soulmark)
  amount := none
  currency := none
  sessionId := none

/-- The effect of lines 118-127 on a donor record `x`, giving `x1`: the name is
`name || donor.name`, `lastContact` is `now`, one event is appended to the
donations, and every other property reads as before. -/
def Touched (env : Env) (d : Donation) (now : JsStr) (x x1 : Json) : Prop :=
  donorField (utf16 "name") x1 = jsOr d.name (donorField (utf16 "name") x) ∧
  donorField (utf16 "lastContact") x1 = some (.str now) ∧
  donorDonations x1 = (donorDonations x).map (fun evs => evs ++ [donationEvent env d now]) ∧
  ∀ key : JsStr, key ≠ utf16 "name" → key ≠ utf16 "lastContact" → key ≠ utf16 "donations" →
    donorField key x1 = donorField key x

/-- Sequential calls of `upsertDonor`, one per request and in order, each with
its own donation and its own value of `now`. -/
def upsertAll (env : Env) (host : Host) : List (Donation × JsStr) → World → World
  | [], w => w
  | c :: rest, w => upsertAll env host rest (upsertDonor env host c.1 c.2 w).2

/-- A stored donor named "Ann", with no donation yet. -/
def annRecord : Json :=
  .obj [(utf16 "email", .str (utf16 "ann@x.com")), (utf16 "name", .str (utf16 "Ann")),
    (utf16 "donations", .arr []), (utf16 "createdAt", .str (utf16 "2023-12-31T00:00:00.000Z")),
    (utf16 "lastContact", .str (utf16 "2023-12-31T00:00:00.000Z"))]

/-- A stored donor "bob@x.com" with one earlier donation. -/
def bobRecord : Json :=
  .obj [(utf16 "email", .str (utf16 "bob@x.com")), (utf16 "name", .str (utf16 "Bob")),
    (utf16 "donations", .arr [.obj [(utf16 "soulmark", .str (utf16 "SM0000000001"))]]),
    (utf16 "createdAt", .str (utf16 "2023-12-30T00:00:00.000Z")),
    (utf16 "lastContact", .str (utf16 "2023-12-30T00:00:00.000Z"))]

/-- A disk on which every call fails. -/
def brokenDisk (file : Option FileText) : World :=
  { worldWith file with fsFails := fun _ => true }

/-- A disk on which only the second call (the read of `loadRegistry`) fails. -/
def flakyRead (file : Option FileText) : World :=
  { worldWith file with fsFails := fun k => decide (k = 1) }

/-- A donation request whose `amount` is the JSON literal `1e400`, which
`JSON.parse` reads as `Infinity`. -/
def hugeDonation : Donation :=
  { donationOf "d@x.com" "SM1234567890" with amount := some (.num .posInf) }

/-! # Properties -/

/-! ## Lemmas on slicing -/

theorem jsSlice_prefix (s : JsStr) (n : Nat) (h : n ≤ s.length) :
    jsSlice s 0 n = s.take n := by
  have h1 : min (0 : Int) (s.length : Int) = 0 := by omega
  have h2 : min (n : Int) (s.length : Int) = n := by omega
  have h3 : ¬ ((n : Int) < 0) := by omega
  simp [jsSlice, h1, h2, h3]

theorem jsSliceFrom_suffix (s : JsStr) (n : Nat) (h : n ≤ s.length) :
    jsSliceFrom s ((s.length : Int) - n) = s.drop (s.length - n) := by
  have h0 : ¬ ((s.length : Int) - n < 0) := by omega
  have h1 : min ((s.length : Int) - n) (s.length : Int) = (s.length : Int) - n := by omega
  have h3 : ((s.length : Int) - (n : Int)).toNat = s.length - n := by omega
  have h4 : ((s.length : Int) - ((s.length : Int) - (n : Int))).toNat = n := by omega
  have h5 : ¬ ((s.length : Int) < 0) := by omega
  simp only [jsSliceFrom, jsSlice, h0, h1, h3, h4, h5, if_false, min_self]
  apply List.take_of_length_le
  simp
  omega

theorem reverse_take_reverse (s : JsStr) (n : Nat) :
    (s.reverse.take n).reverse = s.drop (s.length - n) := by
  rw [List.reverse_take]
  simp

theorem getPartialSoulmark_long (s : JsStr) (h : 10 ≤ s.length) :
    getPartialSoulmark (some s) = s.take 6 ++ [8230] ++ s.drop (s.length - 4) := by
  have hne : s.isEmpty = false := by
    cases s with
    | nil => simp at h
    | cons c cs => rfl
  have hlt : ¬ (s.length < 10) := by omega
  have h4 := jsSliceFrom_suffix s 4 (by omega)
  have h6 := jsSlice_prefix s 6 (by omega)
  simp only [Nat.cast_ofNat] at h4 h6
  simp only [getPartialSoulmark, hne, hlt, decide_False, Bool.or_self, Bool.false_eq_true,
    if_false, h4, h6]
  rfl

theorem getPartialSoulmark_short (s : JsStr) (hne : s ≠ []) (h : s.length < 10) :
    getPartialSoulmark (some s) = s := by
  cases s with
  | nil => exact absurd rfl hne
  | cons c cs =>
    have h1 : (c :: cs).isEmpty = false := rfl
    simp only [getPartialSoulmark, h1, h, decide_True, Bool.false_or, if_true, Bool.false_eq_true,
      if_false]

/-! ## Soulmark masking -/

/-- C3: `getPartialSoulmark` equals the reference masking function on every
input. An absent or empty soulmark gives "N/A", a non-empty soulmark of fewer
than 10 characters is returned verbatim, and one of 10 characters or more gives
its first 6 characters, the ellipsis character and its last 4 characters, a
result of length 11. The three worked examples of the specification are
included. -/
theorem getPartialSoulmark_refines_maskReference :
    (∀ x : Option JsStr, getPartialSoulmark x = maskReference x) ∧
    getPartialSoulmark none = utf16 "N/A" ∧
    getPartialSoulmark (some []) = utf16 "N/A" ∧
    (∀ s : JsStr, s ≠ [] → s.length < 10 → getPartialSoulmark (some s) = s) ∧
    (∀ s : JsStr, 10 ≤ s.length →
      getPartialSoulmark (some s) = s.take 6 ++ utf16 "…" ++ (s.reverse.take 4).reverse ∧
      (getPartialSoulmark (some s)).length = 11) ∧
    getPartialSoulmark (some (utf16 "ABCDEFGHIJKLMNOP")) = utf16 "ABCDEF…MNOP" ∧
    getPartialSoulmark (some (utf16 "short")) = utf16 "short" := by
  have hlong : ∀ s : JsStr, 10 ≤ s.length →
      getPartialSoulmark (some s) = s.take 6 ++ utf16 "…" ++ (s.reverse.take 4).reverse := by
    intro s hs
    rw [getPartialSoulmark_long s hs, reverse_take_reverse]
    rfl
  refine ⟨?_, rfl, rfl, getPartialSoulmark_short, ?_, by decide, by decide⟩
  · intro x
    cases x with
    | none => rfl
    | some s =>
      cases s with
      | nil => rfl
      | cons c cs =>
        by_cases h : (c :: cs).length < 10
        · rw [getPartialSoulmark_short _ (by simp) h]
          simp only [maskReference, h, if_true]
        · rw [hlong _ (by omega)]
          simp only [maskReference, h, if_false]
  · intro s hs
    refine ⟨hlong s hs, ?_⟩
    rw [getPartialSoulmark_long s hs]
    simp
    omega

/-- The masking of a 5-character and of a 16-character soulmark. -/
theorem getPartialSoulmark_refines_maskReference_witness :
    getPartialSoulmark (some (utf16 "short")) = utf16 "short" ∧
    (getPartialSoulmark (some (utf16 "ABCDEFGHIJKLMNOP"))).length = 11 :=
  ⟨getPartialSoulmark_refines_maskReference.2.2.2.1 (utf16 "short") (by decide) (by decide),
    (getPartialSoulmark_refines_maskReference.2.2.2.2.1 (utf16 "ABCDEFGHIJKLMNOP")
      (by decide)).2⟩

/-! ## The handler: validation and send-before-record -/

theorem sendDonationEmail_fails (env : Env) (host : Host) (d : Donation) (w : World)
    (hfail : w.mailFails w.mailCalls = true) :
    ∃ e w1, sendDonationEmail env host d w = (.error e, w1) ∧ w1.file = w.file ∧
      w1.fsCalls = w.fsCalls ∧ w1.outbox = w.outbox := by
  unfold sendDonationEmail
  cases composeHtml env host d with
  | error e => exact ⟨e, w, rfl, rfl, rfl, rfl⟩
  | ok html =>
    simp only [sendMail, hfail, if_true]
    exact ⟨_, _, rfl, rfl, rfl, rfl⟩

theorem strTruthy_of_ne_nil (x : Option JsStr) (s : JsStr) (hx : x = some s) (hs : s ≠ []) :
    strTruthy x = true := by
  cases s with
  | nil => exact absurd rfl hs
  | cons c cs => rw [hx]; rfl

theorem handler_invalid (env : Env) (host : Host) (now : JsStr) (d : Donation) (w : World)
    (hv : (!strTruthy d.email || !strTruthy d.soulmark) = true) :
    donationEmailHandler env host now d w =
      ({ status := 400
         body := .obj [(utf16 "error", .str (utf16 "email and soulmark are required fields."))] },
        w) := by
  simp only [donationEmailHandler, hv, if_true]

theorem handler_send_error (env : Env) (host : Host) (now : JsStr) (d : Donation) (w w1 : World)
    (err : JsErr) (h1 : strTruthy d.email = true) (h2 : strTruthy d.soulmark = true)
    (hsend : sendDonationEmail env host d w = (.error err, w1)) :
    donationEmailHandler env host now d w =
      ({ status := 500
         body := .obj [(utf16 "error", .str (utf16 "Failed to send donation email."))] }, w1) := by
  simp only [donationEmailHandler, h1, h2, hsend, Bool.not_true, Bool.or_self,
    Bool.false_eq_true, if_false]

theorem handler_upsert_error (env : Env) (host : Host) (now : JsStr) (d : Donation)
    (w w1 w2 : World) (err : JsErr) (u : Unit)
    (h1 : strTruthy d.email = true) (h2 : strTruthy d.soulmark = true)
    (hsend : sendDonationEmail env host d w = (.ok u, w1))
    (hup : upsertDonor env host d now w1 = (.error err, w2)) :
    donationEmailHandler env host now d w =
      ({ status := 500
         body := .obj [(utf16 "error", .str (utf16 "Failed to send donation email."))] }, w2) := by
  simp only [donationEmailHandler, h1, h2, hsend, hup, Bool.not_true, Bool.or_self,
    Bool.false_eq_true, if_false]

theorem handler_success (env : Env) (host : Host) (now : JsStr) (d : Donation)
    (w w1 w2 : World) (u u2 : Unit)
    (h1 : strTruthy d.email = true) (h2 : strTruthy d.soulmark = true)
    (hsend : sendDonationEmail env host d w = (.ok u, w1))
    (hup : upsertDonor env host d now w1 = (.ok u2, w2)) :
    donationEmailHandler env host now d w =
      ({ status := 200, body := .obj [(utf16 "ok", .bool true)] }, w2) := by
  simp only [donationEmailHandler, h1, h2, hsend, hup, Bool.not_true, Bool.or_self,
    Bool.false_eq_true, if_false]

/-- C1: for every request whose `email` and `soulmark` are non-empty strings,
whatever the registry file holds: when `transporter.sendMail` fails, the handler
answers 500 with an error, the registry file is unchanged and no file-system
call has been made (so `upsertDonor`, `loadRegistry` and `saveRegistry` did not
run), and nothing entered the outbox. -/
theorem send_failure_leaves_registry_untouched (env : Env) (host : Host) (now : JsStr)
    (d : Donation) (w : World) (e s : JsStr)
    (hemail : d.email = some e) (he : e ≠ []) (hsoul : d.soulmark = some s) (hs : s ≠ [])
    (hfail : w.mailFails w.mailCalls = true) :
    (donationEmailHandler env host now d w).1.status = 500 ∧
    (donationEmailHandler env host now d w).1.body
      = .obj [(utf16 "error", .str (utf16 "Failed to send donation email."))] ∧
    (donationEmailHandler env host now d w).2.file = w.file ∧
    (donationEmailHandler env host now d w).2.fsCalls = w.fsCalls ∧
    (donationEmailHandler env host now d w).2.outbox = w.outbox := by
  obtain ⟨err, w1, hsend, hfile, hcalls, hout⟩ := sendDonationEmail_fails env host d w hfail
  have h1 := strTruthy_of_ne_nil d.email e hemail he
  have h2 := strTruthy_of_ne_nil d.soulmark s hsoul hs
  rw [handler_send_error env host now d w w1 err h1 h2 hsend]
  exact ⟨rfl, rfl, hfile, hcalls, hout⟩

/-- A world whose mail transport rejects every message. -/
theorem send_failure_leaves_registry_untouched_witness :
    (donationEmailHandler defaultEnv asciiHost (utf16 "2024-01-01T00:00:00.000Z")
        (donationOf "d@x.com" "SM1234567890")
        { worldWith (some (.json (.arr []))) with mailFails := fun _ => true }).1.status = 500 ∧
    (donationEmailHandler defaultEnv asciiHost (utf16 "2024-01-01T00:00:00.000Z")
        (donationOf "d@x.com" "SM1234567890")
        { worldWith (some (.json (.arr []))) with mailFails := fun _ => true }).2.fsCalls = 0 :=
  have h := send_failure_leaves_registry_untouched defaultEnv asciiHost
    (utf16 "2024-01-01T00:00:00.000Z") (donationOf "d@x.com" "SM1234567890")
    { worldWith (some (.json (.arr []))) with mailFails := fun _ => true }
    (utf16 "d@x.com") (utf16 "SM1234567890") rfl (by decide) rfl (by decide) rfl
  ⟨h.1, h.2.2.2.1⟩

/-- C2: a request in which `email` or `soulmark` is missing or empty, whatever
its other fields, is answered 400 with an error message and the world is left
exactly as it was (no mail attempted, no file-system call, registry file
unchanged); a request in which both are non-empty strings is never answered
400. -/
theorem missing_field_rejected_with_400 (env : Env) (host : Host) (now : JsStr)
    (d : Donation) (w : World) :
    ((d.email = none ∨ d.email = some [] ∨ d.soulmark = none ∨ d.soulmark = some []) →
      (donationEmailHandler env host now d w).1.status = 400 ∧
      (donationEmailHandler env host now d w).1.body
        = .obj [(utf16 "error", .str (utf16 "email and soulmark are required fields."))] ∧
      (donationEmailHandler env host now d w).2 = w) ∧
    (∀ e s : JsStr, d.email = some e → e ≠ [] → d.soulmark = some s → s ≠ [] →
      (donationEmailHandler env host now d w).1.status ≠ 400) := by
  constructor
  · intro h
    have hv : (!strTruthy d.email || !strTruthy d.soulmark) = true := by
      rcases h with h | h | h | h <;> rw [h] <;> simp [strTruthy]
    rw [handler_invalid env host now d w hv]
    exact ⟨rfl, rfl, rfl⟩
  · intro e s hemail he hsoul hs
    have h1 := strTruthy_of_ne_nil d.email e hemail he
    have h2 := strTruthy_of_ne_nil d.soulmark s hsoul hs
    rcases hsend : sendDonationEmail env host d w with ⟨r1, w1⟩
    cases r1 with
    | error err =>
      rw [handler_send_error env host now d w w1 err h1 h2 hsend]
      show (500 : Nat) ≠ 400
      decide
    | ok u =>
      rcases hup : upsertDonor env host d now w1 with ⟨r2, w2⟩
      cases r2 with
      | error err =>
        rw [handler_upsert_error env host now d w w1 w2 err u h1 h2 hsend hup]
        show (500 : Nat) ≠ 400
        decide
      | ok u2 =>
        rw [handler_success env host now d w w1 w2 u u2 h1 h2 hsend hup]
        show (200 : Nat) ≠ 400
        decide

/-- A request without `email` is rejected and sends nothing; a complete one is not answered 400. -/
theorem missing_field_rejected_with_400_witness :
    (donationEmailHandler defaultEnv asciiHost (utf16 "2024-01-01T00:00:00.000Z")
        { donationOf "" "SM1234567890" with email := none }
        (worldWith (some (.json (.arr [])))) ).1.status = 400 ∧
    (donationEmailHandler defaultEnv asciiHost (utf16 "2024-01-01T00:00:00.000Z")
        (donationOf "d@x.com" "SM1234567890")
        (worldWith (some (.json (.arr [])))) ).1.status ≠ 400 :=
  ⟨((missing_field_rejected_with_400 defaultEnv asciiHost (utf16 "2024-01-01T00:00:00.000Z")
        { donationOf "" "SM1234567890" with email := none }
        (worldWith (some (.json (.arr []))))).1 (Or.inl rfl)).1,
   (missing_field_rejected_with_400 defaultEnv asciiHost (utf16 "2024-01-01T00:00:00.000Z")
        (donationOf "d@x.com" "SM1234567890")
        (worldWith (some (.json (.arr []))))).2 (utf16 "d@x.com") (utf16 "SM1234567890")
        rfl (by decide) rfl (by decide)⟩

/-! ## Registry store -/

theorem loadRegistry_json (w : World) (hfs : FsWorks w) (v : Json)
    (hfile : w.file = some (.json v)) :
    loadRegistry w = (.ok v, { w with fsCalls := w.fsCalls + 1 + 1 }) := by
  have e1 := hfs w.fsCalls
  have e2 := hfs (w.fsCalls + 1)
  simp [loadRegistry, loadRegistryTry, ensureFile, readFile, fsTick, e1, e2, hfile,
    trimIsEmpty, jsonParse]

theorem loadRegistry_reset (w : World) (hfs : FsWorks w)
    (hfile : w.file = none ∨ w.file = some .blank ∨ w.file = some .notJson) :
    loadRegistry w =
      (.ok (.arr []), { w with file := some emptyArrayText, fsCalls := w.fsCalls + 1 + 1 + 1 }) := by
  have e1 := hfs w.fsCalls
  have e2 := hfs (w.fsCalls + 1)
  have e3 := hfs (w.fsCalls + 1 + 1)
  rcases hfile with h | h | h <;>
    simp [loadRegistry, loadRegistryTry, loadRegistryCatch, ensureFile, readFile, writeFile,
      fsTick, e1, e2, e3, h, trimIsEmpty, jsonParse]

/-- C9 as stated fails on text that is valid JSON but no array: on a file
holding `{}` or `42`, with a working disk, `loadRegistry` returns the parsed
value, not the empty sequence, and leaves the file as it is. -/
theorem loadRegistry_returns_non_array_json :
    (loadRegistry (worldWith (some (.json (.obj []))))).1 = .ok (.obj []) ∧
    (loadRegistry (worldWith (some (.json (.obj []))))).1 ≠ .ok (.arr []) ∧
    (loadRegistry (worldWith (some (.json (.obj []))))).2.file = some (.json (.obj [])) ∧
    (loadRegistry (worldWith (some (.json (.num (.fin 42)))))).1 = .ok (.num (.fin 42)) ∧
    (loadRegistry (worldWith (some (.json (.num (.fin 42)))))).1 ≠ .ok (.arr []) ∧
    (loadRegistry (worldWith (some (.json (.num (.fin 42)))))).2.file = some (.json (.num (.fin 42))) := by
  have h1 := loadRegistry_json (worldWith (some (.json (.obj [])))) (fun _ => rfl) (.obj []) rfl
  have h2 := loadRegistry_json (worldWith (some (.json (.num (.fin 42))))) (fun _ => rfl) (.num (.fin 42)) rfl
  rw [h1, h2]
  refine ⟨rfl, ?_, rfl, rfl, ?_, rfl⟩
  · intro h
    cases h
  · intro h
    cases h

/-- C9, amended: with a working disk, on a registry file that is missing,
empty, whitespace-only or not parsable as JSON, `loadRegistry` returns the
empty sequence without raising and leaves the file holding `[]`, and a second
`loadRegistry` again returns the empty sequence and leaves `[]`; on a file
that parses as JSON it returns the parsed value, whatever its shape, and
leaves the file as it is. -/
theorem loadRegistry_resets_blank_or_unparsable (w : World) (hfs : FsWorks w) :
    ((w.file = none ∨ w.file = some .blank ∨ w.file = some .notJson) →
      (loadRegistry w).1 = .ok (.arr []) ∧
      (loadRegistry w).2.file = some (.json (.arr [])) ∧
      (loadRegistry (loadRegistry w).2).1 = .ok (.arr []) ∧
      (loadRegistry (loadRegistry w).2).2.file = some (.json (.arr []))) ∧
    (∀ v : Json, w.file = some (.json v) →
      (loadRegistry w).1 = .ok v ∧ (loadRegistry w).2.file = some (.json v)) := by
  constructor
  · intro hfile
    have h1 := loadRegistry_reset w hfs hfile
    have h2 := loadRegistry_json
      { w with file := some emptyArrayText, fsCalls := w.fsCalls + 1 + 1 + 1 } hfs (.arr []) rfl
    rw [h1, h2]
    exact ⟨rfl, rfl, rfl, rfl⟩
  · intro v hfile
    rw [loadRegistry_json w hfs v hfile]
    exact ⟨rfl, hfile⟩

/-- A file of whitespace and a file of text that is no JSON are both reset to `[]`. -/
theorem loadRegistry_resets_blank_or_unparsable_witness :
    ((loadRegistry (worldWith (some .blank))).1 = .ok (.arr []) ∧
      (loadRegistry (worldWith (some .blank))).2.file = some (.json (.arr []))) ∧
    ((loadRegistry (worldWith (some .notJson))).1 = .ok (.arr []) ∧
      (loadRegistry (worldWith (some .notJson))).2.file = some (.json (.arr []))) :=
  have hb := (loadRegistry_resets_blank_or_unparsable (worldWith (some .blank))
    (fun _ => rfl)).1 (Or.inr (Or.inl rfl))
  have hn := (loadRegistry_resets_blank_or_unparsable (worldWith (some .notJson))
    (fun _ => rfl)).1 (Or.inr (Or.inr rfl))
  ⟨⟨hb.1, hb.2.1⟩, ⟨hn.1, hn.2.1⟩⟩

/-! ## Properties of objects -/

theorem lookupProp_assignProp_same (k : JsStr) (v : Json) (ps : List (JsStr × Json)) :
    lookupProp k (assignProp k v ps) = some v := by
  induction ps with
  | nil => simp [assignProp, lookupProp]
  | cons p ps ih =>
    obtain ⟨k1, v1⟩ := p
    by_cases h : k1 = k
    · simp [assignProp, lookupProp, h]
    · simp [assignProp, lookupProp, h, ih]

theorem lookupProp_assignProp_ne (k k1 : JsStr) (v : Json) (ps : List (JsStr × Json))
    (h : k1 ≠ k) : lookupProp k1 (assignProp k v ps) = lookupProp k1 ps := by
  induction ps with
  | nil => simp [assignProp, lookupProp, Ne.symm h]
  | cons p ps ih =>
    obtain ⟨k2, v2⟩ := p
    by_cases h2 : k2 = k
    · subst h2
      simp [assignProp, lookupProp, Ne.symm h]
    · by_cases h3 : k2 = k1
      · subst h3
        simp [assignProp, lookupProp, h2]
      · simp [assignProp, lookupProp, h2, h3, ih]

theorem lookupProp_removeProp_same (k : JsStr) (ps : List (JsStr × Json)) :
    lookupProp k (removeProp k ps) = none := by
  induction ps with
  | nil => simp [removeProp, lookupProp]
  | cons p ps ih =>
    obtain ⟨k1, v1⟩ := p
    by_cases h : k1 = k
    · simp [removeProp, h, ih]
    · simp [removeProp, h, lookupProp, ih]

theorem lookupProp_removeProp_ne (k k1 : JsStr) (ps : List (JsStr × Json)) (h : k1 ≠ k) :
    lookupProp k1 (removeProp k ps) = lookupProp k1 ps := by
  induction ps with
  | nil => simp [removeProp, lookupProp]
  | cons p ps ih =>
    obtain ⟨k2, v2⟩ := p
    by_cases h2 : k2 = k
    · subst h2
      have h3 : ¬ k2 = k1 := fun hh => h hh.symm
      simp [removeProp, lookupProp, h3, ih]
    · by_cases h3 : k2 = k1
      · subst h3
        simp [removeProp, h2, lookupProp]
      · simp [removeProp, h2, lookupProp, h3, ih]

theorem lookupProp_setProp_same (k : JsStr) (v : Option Json) (ps : List (JsStr × Json)) :
    lookupProp k (setProp k v ps) = v := by
  cases v with
  | none => exact lookupProp_removeProp_same k ps
  | some x => exact lookupProp_assignProp_same k x ps

theorem lookupProp_setProp_ne (k k1 : JsStr) (v : Option Json) (ps : List (JsStr × Json))
    (h : k1 ≠ k) : lookupProp k1 (setProp k v ps) = lookupProp k1 ps := by
  cases v with
  | none => exact lookupProp_removeProp_ne k k1 ps h
  | some x => exact lookupProp_assignProp_ne k k1 x ps h

theorem jsOr_idem (a b : Option Json) : jsOr a (jsOr a b) = jsOr a b := by
  unfold jsOr
  by_cases h : truthy a = true <;> simp [h]

/-! ## Donor records -/

theorem donorEmail_some (x : Json) (s : JsStr) (h : donorEmail x = some s) :
    ∃ props, x = .obj props ∧ lookupProp (utf16 "email") props = some (.str s) := by
  cases x with
  | obj props =>
    refine ⟨props, rfl, ?_⟩
    simp only [donorEmail] at h
    split at h
    · rename_i s1 hs1
      rw [hs1]
      simp only [Option.some.injEq] at h
      rw [h]
    · exact absurd h (by simp)
  | null => exact absurd h (by simp [donorEmail])
  | bool b => exact absurd h (by simp [donorEmail])
  | num q => exact absurd h (by simp [donorEmail])
  | str t => exact absurd h (by simp [donorEmail])
  | arr xs => exact absurd h (by simp [donorEmail])

theorem donorDonations_some (props : List (JsStr × Json)) (evs : List Json)
    (h : donorDonations (.obj props) = some evs) :
    lookupProp (utf16 "donations") props = some (.arr evs) := by
  simp only [donorDonations] at h
  split at h
  · rename_i e1 he1
    rw [he1]
    simp only [Option.some.injEq] at h
    rw [h]
  · exact absurd h (by simp)

theorem touchDonor_record (env : Env) (d : Donation) (now : JsStr) (x : Json)
    (hx : isDonorRecord x = true) :
    ∃ x1, touchDonor env d now x = .ok x1 ∧ Touched env d now x x1 ∧
      donorEmail x1 = donorEmail x ∧ isDonorRecord x1 = true := by
  simp only [isDonorRecord, Bool.and_eq_true, Option.isSome_iff_exists] at hx
  obtain ⟨⟨s, hs⟩, ⟨evs, hevs⟩⟩ := hx
  obtain ⟨props, rfl, hemail⟩ := donorEmail_some x s hs
  have hdon := donorDonations_some props evs hevs
  have k1 : utf16 "donations" ≠ utf16 "lastContact" := by decide
  have k2 : utf16 "donations" ≠ utf16 "name" := by decide
  have k3 : utf16 "name" ≠ utf16 "lastContact" := by decide
  have k4 : utf16 "email" ≠ utf16 "name" := by decide
  have k5 : utf16 "email" ≠ utf16 "lastContact" := by decide
  have k6 : utf16 "email" ≠ utf16 "donations" := by decide
  have hd2 : lookupProp (utf16 "donations")
      (setProp (utf16 "lastContact") (some (.str now))
        (setProp (utf16 "name") (jsOr d.name (lookupProp (utf16 "name") props)) props))
      = some (.arr evs) := by
    rw [lookupProp_setProp_ne _ _ _ _ k1, lookupProp_setProp_ne _ _ _ _ k2, hdon]
  have ht : touchDonor env d now (.obj props) = .ok (.obj
      (setProp (utf16 "donations") (some (.arr (evs ++ [donationEvent env d now])))
        (setProp (utf16 "lastContact") (some (.str now))
          (setProp (utf16 "name") (jsOr d.name (lookupProp (utf16 "name") props)) props)))) := by
    simp only [touchDonor, hd2]
  refine ⟨_, ht, ?_⟩
  have hfield : ∀ key : JsStr, key ≠ utf16 "name" → key ≠ utf16 "lastContact" →
      key ≠ utf16 "donations" →
      lookupProp key (setProp (utf16 "donations")
        (some (.arr (evs ++ [donationEvent env d now])))
        (setProp (utf16 "lastContact") (some (.str now))
          (setProp (utf16 "name") (jsOr d.name (lookupProp (utf16 "name") props)) props)))
        = lookupProp key props := by
    intro key h1 h2 h3
    rw [lookupProp_setProp_ne _ _ _ _ h3, lookupProp_setProp_ne _ _ _ _ h2,
      lookupProp_setProp_ne _ _ _ _ h1]
  refine ⟨⟨?_, ?_, ?_, ?_⟩, ?_, ?_⟩
  · simp only [donorField]
    rw [lookupProp_setProp_ne _ _ _ _ k2.symm, lookupProp_setProp_ne _ _ _ _ k3,
      lookupProp_setProp_same]
  · simp only [donorField]
    rw [lookupProp_setProp_ne _ _ _ _ k1.symm, lookupProp_setProp_same]
  · simp only [donorDonations, lookupProp_setProp_same, hdon, Option.map_some']
  · intro key h1 h2 h3
    exact hfield key h1 h2 h3
  · simp only [donorEmail, hfield _ k4 k5 k6]
  · simp only [isDonorRecord, donorEmail, donorDonations, hfield _ k4 k5 k6, hemail,
      lookupProp_setProp_same, Option.isSome_some, Bool.and_self]

/-! ## What `JSON.stringify` writes -/

mutual
theorem stored_idem : ∀ v : Json, v.stored.stored = v.stored
  | .null => rfl
  | .bool _ => rfl
  | .num (.fin _) => rfl
  | .num .posInf => rfl
  | .num .negInf => rfl
  | .num .nan => rfl
  | .str _ => rfl
  | .arr xs => by simp only [Json.stored, storedList_idem xs]
  | .obj props => by simp only [Json.stored, storedProps_idem props]
theorem storedList_idem : ∀ xs : List Json, storedList (storedList xs) = storedList xs
  | [] => rfl
  | x :: xs => by simp only [storedList, stored_idem x, storedList_idem xs]
theorem storedProps_idem :
    ∀ props : List (JsStr × Json), storedProps (storedProps props) = storedProps props
  | [] => rfl
  | (k, v) :: props => by simp only [storedProps, stored_idem v, storedProps_idem props]
end

mutual
theorem stored_of_allFinite : ∀ v : Json, v.allFinite = true → v.stored = v
  | .null, _ => rfl
  | .bool _, _ => rfl
  | .num (.fin _), _ => rfl
  | .num .posInf, h => by simp [Json.allFinite] at h
  | .num .negInf, h => by simp [Json.allFinite] at h
  | .num .nan, h => by simp [Json.allFinite] at h
  | .str _, _ => rfl
  | .arr xs, h => by
    simp only [Json.allFinite] at h
    simp only [Json.stored, storedList_of_allFinite xs h]
  | .obj props, h => by
    simp only [Json.allFinite] at h
    simp only [Json.stored, storedProps_of_allFinite props h]
theorem storedList_of_allFinite : ∀ xs : List Json, allFiniteList xs = true → storedList xs = xs
  | [], _ => rfl
  | x :: xs, h => by
    simp only [allFiniteList, Bool.and_eq_true] at h
    simp only [storedList, stored_of_allFinite x h.1, storedList_of_allFinite xs h.2]
theorem storedProps_of_allFinite :
    ∀ props : List (JsStr × Json), allFiniteProps props = true → storedProps props = props
  | [], _ => rfl
  | (k, v) :: props, h => by
    simp only [allFiniteProps, Bool.and_eq_true] at h
    simp only [storedProps, stored_of_allFinite v h.1, storedProps_of_allFinite props h.2]
end

theorem storedList_eq_map (xs : List Json) : storedList xs = xs.map Json.stored := by
  induction xs with
  | nil => rfl
  | cons x xs ih => simp only [storedList, ih, List.map_cons]

theorem jsonStringify_arr (xs : List Json) :
    jsonStringify (.arr xs) = .json (.arr (xs.map Json.stored)) := by
  simp only [jsonStringify, Json.stored, storedList_eq_map]

theorem jsonStringify_of_allFinite (v : Json) (h : v.allFinite = true) :
    jsonStringify v = .json v := by
  simp only [jsonStringify, stored_of_allFinite v h]

theorem lookupProp_storedProps (key : JsStr) (props : List (JsStr × Json)) :
    lookupProp key (storedProps props) = (lookupProp key props).map Json.stored := by
  induction props with
  | nil => rfl
  | cons p props ih =>
    obtain ⟨k, v⟩ := p
    by_cases h : k = key
    · simp [storedProps, lookupProp, h]
    · simp [storedProps, lookupProp, h, ih]

theorem donorField_stored (key : JsStr) (x : Json) :
    donorField key x.stored = (donorField key x).map Json.stored := by
  cases x with
  | obj props => simp only [Json.stored, donorField, lookupProp_storedProps]
  | num n => cases n <;> rfl
  | null => rfl
  | bool b => rfl
  | str s => rfl
  | arr xs => rfl

theorem donorEmail_stored (x : Json) : donorEmail x.stored = donorEmail x := by
  cases x with
  | obj props =>
    simp only [Json.stored, donorEmail, lookupProp_storedProps]
    cases lookupProp (utf16 "email") props with
    | none => rfl
    | some v =>
      cases v with
      | num n => cases n <;> rfl
      | null => rfl
      | bool b => rfl
      | str s => rfl
      | arr xs => rfl
      | obj ps => rfl
  | num n => cases n <;> rfl
  | null => rfl
  | bool b => rfl
  | str s => rfl
  | arr xs => rfl

theorem donorDonations_stored (x : Json) :
    donorDonations x.stored = (donorDonations x).map fun evs => evs.map Json.stored := by
  cases x with
  | obj props =>
    simp only [Json.stored, donorDonations, lookupProp_storedProps]
    cases lookupProp (utf16 "donations") props with
    | none => rfl
    | some v =>
      cases v with
      | num n => cases n <;> rfl
      | null => rfl
      | bool b => rfl
      | str s => rfl
      | arr xs => simp [Json.stored, storedList_eq_map]
      | obj ps => rfl
  | num n => cases n <;> rfl
  | null => rfl
  | bool b => rfl
  | str s => rfl
  | arr xs => rfl

theorem isDonorRecord_stored (x : Json) : isDonorRecord x.stored = isDonorRecord x := by
  simp only [isDonorRecord, donorEmail_stored, donorDonations_stored, Option.isSome_map']

theorem uniqueEmails_stored (host : Host) (ds : List Json) (hu : UniqueEmails host ds) :
    UniqueEmails host (ds.map Json.stored) := by
  unfold UniqueEmails at hu ⊢
  rw [List.pairwise_map]
  simpa only [donorEmail_stored] using hu

/-! ## Searching the registry -/

theorem emailMatches_record (host : Host) (e : JsStr) (x : Json) (s : JsStr)
    (h : donorEmail x = some s) :
    emailMatches host (some e) x
      = .ok (decide (host.toLowerCase s = host.toLowerCase e)) := by
  obtain ⟨props, rfl, hl⟩ := donorEmail_some x s h
  simp only [emailMatches, getProp, hl]

theorem findDonor_none (host : Host) (e : JsStr) (ds : List Json)
    (h : ∀ y ∈ ds, ∃ s, donorEmail y = some s ∧ host.toLowerCase s ≠ host.toLowerCase e) :
    findDonor host (some e) ds = .ok none := by
  induction ds with
  | nil => rfl
  | cons y ys ih =>
    obtain ⟨s, hs, hne⟩ := h y (List.mem_cons_self y ys)
    have ih1 := ih fun z hz => h z (List.mem_cons_of_mem y hz)
    simp only [findDonor, emailMatches_record host e y s hs, hne, decide_False, ih1,
      Option.map_none']

theorem findDonor_first (host : Host) (e : JsStr) (pre : List Json) (x : Json)
    (post : List Json)
    (hpre : ∀ y ∈ pre, ∃ s, donorEmail y = some s ∧ host.toLowerCase s ≠ host.toLowerCase e)
    (hx : matchesEmail host e x) :
    findDonor host (some e) (pre ++ x :: post) = .ok (some pre.length) := by
  induction pre with
  | nil =>
    obtain ⟨s, hs, heq⟩ := hx
    simp only [List.nil_append, findDonor, emailMatches_record host e x s hs, heq, decide_True,
      List.length_nil]
  | cons y ys ih =>
    obtain ⟨s, hs, hne⟩ := hpre y (List.mem_cons_self y ys)
    have ih1 := ih fun z hz => hpre z (List.mem_cons_of_mem y hz)
    simp only [List.cons_append, findDonor, emailMatches_record host e y s hs, hne,
      decide_False, List.append_eq, ih1, Option.map_some', List.length_cons]

theorem records_split (host : Host) (e : JsStr) (ds : List Json)
    (hwf : ∀ y ∈ ds, isDonorRecord y = true) :
    (∀ y ∈ ds, ∃ s, donorEmail y = some s ∧ host.toLowerCase s ≠ host.toLowerCase e) ∨
    ∃ pre x post, ds = pre ++ x :: post ∧
      (∀ y ∈ pre, ∃ s, donorEmail y = some s ∧ host.toLowerCase s ≠ host.toLowerCase e) ∧
      matchesEmail host e x := by
  induction ds with
  | nil => exact Or.inl (fun y hy => absurd hy (List.not_mem_nil y))
  | cons y ys ih =>
    have hy := hwf y (List.mem_cons_self y ys)
    simp only [isDonorRecord, Bool.and_eq_true, Option.isSome_iff_exists] at hy
    obtain ⟨⟨s, hs⟩, _⟩ := hy
    by_cases hm : host.toLowerCase s = host.toLowerCase e
    · exact Or.inr ⟨[], y, ys, rfl, fun z hz => absurd hz (List.not_mem_nil z), ⟨s, hs, hm⟩⟩
    · rcases ih (fun z hz => hwf z (List.mem_cons_of_mem y hz)) with hno | ⟨pre, x, post, hd, hpre, hx⟩
      · left
        intro z hz
        rcases List.mem_cons.mp hz with rfl | hz1
        · exact ⟨s, hs, hm⟩
        · exact hno z hz1
      · right
        refine ⟨y :: pre, x, post, by rw [hd]; rfl, ?_, hx⟩
        intro z hz
        rcases List.mem_cons.mp hz with rfl | hz1
        · exact ⟨s, hs, hm⟩
        · exact hpre z hz1

/-! ## The read-modify part of `upsertDonor` -/

theorem upsertRegistry_existing (env : Env) (host : Host) (d : Donation) (now e : JsStr)
    (pre : List Json) (x : Json) (post : List Json) (he : d.email = some e)
    (hpre : ∀ y ∈ pre, ∃ s, donorEmail y = some s ∧ host.toLowerCase s ≠ host.toLowerCase e)
    (hx : matchesEmail host e x) (hrec : isDonorRecord x = true) :
    ∃ x1, upsertRegistry env host d now (.arr (pre ++ x :: post))
        = .ok (.arr (pre ++ x1 :: post)) ∧
      Touched env d now x x1 ∧ donorEmail x1 = donorEmail x ∧ isDonorRecord x1 = true := by
  obtain ⟨x1, ht, htouched, hemail, hrec1⟩ := touchDonor_record env d now x hrec
  refine ⟨x1, ?_, htouched, hemail, hrec1⟩
  have hfind := findDonor_first host e pre x post hpre hx
  simp only [upsertRegistry, he, hfind, Option.isSome_some, if_true, Option.getD_some,
    List.getElem?_append_right (Nat.le_refl _), Nat.sub_self, List.getElem?_cons_zero, ht]
  simp

theorem newDonor_record (d : Donation) (now e : JsStr) (he : d.email = some e) :
    donorEmail (newDonor d now) = some e ∧
    donorDonations (newDonor d now) = some [] ∧
    donorField (utf16 "name") (newDonor d now) = jsOr d.name (some (.str [])) ∧
    donorField (utf16 "createdAt") (newDonor d now) = some (.str now) := by
  have hn : ∃ nv, jsOr d.name (some (.str [])) = some nv := by
    unfold jsOr
    cases hname : d.name with
    | none => exact ⟨_, rfl⟩
    | some v =>
      by_cases hv : truthy (some v) = true
      · exact ⟨v, by simp [hv]⟩
      · exact ⟨.str [], by simp [hv]⟩
  obtain ⟨nv, hnv⟩ := hn
  have hnew : newDonor d now = .obj [(utf16 "email", .str e), (utf16 "name", nv),
      (utf16 "donations", .arr []), (utf16 "createdAt", .str now),
      (utf16 "lastContact", .str now)] := by
    simp [newDonor, objectLiteral, he, hnv, strVal]
  rw [hnew, hnv]
  exact ⟨rfl, rfl, rfl, rfl⟩

theorem upsertRegistry_new (env : Env) (host : Host) (d : Donation) (now e : JsStr)
    (ds : List Json) (he : d.email = some e)
    (hno : ∀ y ∈ ds, ∃ s, donorEmail y = some s ∧ host.toLowerCase s ≠ host.toLowerCase e) :
    ∃ x1, upsertRegistry env host d now (.arr ds) = .ok (.arr (ds ++ [x1])) ∧
      donorEmail x1 = some e ∧
      donorDonations x1 = some [donationEvent env d now] ∧
      donorField (utf16 "name") x1 = jsOr d.name (some (.str [])) ∧
      donorField (utf16 "createdAt") x1 = some (.str now) ∧
      donorField (utf16 "lastContact") x1 = some (.str now) ∧
      isDonorRecord x1 = true := by
  obtain ⟨hne, hnd, hnn, hnc⟩ := newDonor_record d now e he
  have hrec : isDonorRecord (newDonor d now) = true := by
    simp [isDonorRecord, hne, hnd]
  obtain ⟨x1, ht, ⟨h1, h2, h3, h4⟩, hemail, hrec1⟩ :=
    touchDonor_record env d now (newDonor d now) hrec
  refine ⟨x1, ?_, ?_, ?_, ?_, ?_, h2, hrec1⟩
  · have hfind := findDonor_none host e ds hno
    simp only [upsertRegistry, he, hfind, Option.isSome_none, Bool.false_eq_true, if_false,
      Option.getD_none, List.getElem?_append_right (Nat.le_refl _), Nat.sub_self,
      List.getElem?_cons_zero, ht]
    simp
  · rw [hemail, hne]
  · rw [h3, hnd]
    rfl
  · rw [h1, hnn, jsOr_idem]
  · rw [h4 (utf16 "createdAt") (by decide) (by decide) (by decide), hnc]

/-! ## `upsertDonor` on a working disk -/

theorem upsertDonor_works (env : Env) (host : Host) (d : Donation) (now : JsStr) (w : World)
    (reg reg1 : Json) (hfs : FsWorks w) (hfile : w.file = some (.json reg))
    (hcore : upsertRegistry env host d now reg = .ok reg1) :
    upsertDonor env host d now w =
      (.ok (), { w with file := some (jsonStringify reg1),
                        fsCalls := w.fsCalls + 1 + 1 + 1 }) := by
  have e3 := hfs (w.fsCalls + 1 + 1)
  simp [upsertDonor, loadRegistry_json w hfs reg hfile, hcore, saveRegistry, writeFile, e3,
    fsTick]

/-! ## `upsertDonor` whatever the disk does -/

theorem writeFile_file (text : FileText) (w : World) :
    ((writeFile text w).1 = .ok () ∧ (writeFile text w).2.file = some text) ∨
    ((writeFile text w).1 = .error .ioError ∧ (writeFile text w).2.file = w.file) := by
  unfold writeFile
  by_cases h : w.fsFails w.fsCalls = true
  · right
    simp [h, fsTick]
  · left
    simp [h, fsTick]

theorem saveRegistry_file (reg : Json) (w : World) :
    (saveRegistry reg w).1 = .ok () ∧
    ((saveRegistry reg w).2.file = some (jsonStringify reg) ∨
      (saveRegistry reg w).2.file = w.file) := by
  unfold saveRegistry
  rcases hw : writeFile (jsonStringify reg) w with ⟨r, w1⟩
  have h := writeFile_file (jsonStringify reg) w
  rw [hw] at h
  cases r with
  | ok u =>
    rcases h with ⟨_, h2⟩ | ⟨h1, _⟩
    · exact ⟨rfl, Or.inl h2⟩
    · exact absurd h1 (by simp)
  | error e =>
    rcases h with ⟨h1, _⟩ | ⟨_, h2⟩
    · exact absurd h1 (by simp)
    · exact ⟨rfl, Or.inr h2⟩

theorem loadRegistryCatch_file (w : World) :
    ((loadRegistryCatch w).1 = .ok (.arr []) ∧
      (loadRegistryCatch w).2.file = some (.json (.arr []))) ∨
    ((loadRegistryCatch w).1 = .error .ioError ∧ (loadRegistryCatch w).2.file = w.file) := by
  unfold loadRegistryCatch writeFile
  by_cases h : w.fsFails w.fsCalls = true
  · right
    simp [h, fsTick]
  · left
    simp [h, fsTick, emptyArrayText]

theorem loadRegistry_of_try_ok (w w1 : World) (registry : Json)
    (h : loadRegistryTry w = (.ok registry, w1)) : loadRegistry w = (.ok registry, w1) := by
  simp only [loadRegistry, h]

theorem loadRegistry_of_try_error (w w1 : World) (err : JsErr)
    (h : loadRegistryTry w = (.error err, w1)) : loadRegistry w = loadRegistryCatch w1 := by
  simp only [loadRegistry, h]

theorem loadRegistryTry_file (w : World) (v : Json) (hfile : w.file = some (.json v)) :
    ((loadRegistryTry w).1 = .ok v ∨ ∃ err, (loadRegistryTry w).1 = .error err) ∧
    (loadRegistryTry w).2.file = some (.json v) := by
  unfold loadRegistryTry ensureFile
  by_cases h0 : w.fsFails w.fsCalls = true
  · simp [h0, fsTick, hfile]
  · unfold readFile
    by_cases h1 : w.fsFails (w.fsCalls + 1) = true
    · simp [h0, h1, fsTick, hfile]
    · simp [h0, h1, fsTick, hfile, trimIsEmpty, jsonParse]

theorem loadRegistry_file (w : World) (v : Json) (hfile : w.file = some (.json v)) :
    ((loadRegistry w).1 = .ok v ∧ (loadRegistry w).2.file = some (.json v)) ∨
    ((loadRegistry w).1 = .ok (.arr []) ∧ (loadRegistry w).2.file = some (.json (.arr []))) ∨
    ((loadRegistry w).1 = .error .ioError ∧ (loadRegistry w).2.file = some (.json v)) := by
  obtain ⟨hres, hf⟩ := loadRegistryTry_file w v hfile
  rcases ht : loadRegistryTry w with ⟨r, w1⟩
  rw [ht] at hres hf
  cases r with
  | ok registry =>
    rw [loadRegistry_of_try_ok w w1 registry ht]
    rcases hres with h | ⟨err, h⟩
    · exact Or.inl ⟨h, hf⟩
    · exact absurd h (by simp)
  | error err =>
    rw [loadRegistry_of_try_error w w1 err ht]
    rcases loadRegistryCatch_file w1 with h | ⟨h1, h2⟩
    · exact Or.inr (Or.inl h)
    · exact Or.inr (Or.inr ⟨h1, h2.trans hf⟩)

theorem upsertDonor_of_load_error (env : Env) (host : Host) (d : Donation) (now : JsStr)
    (w w1 : World) (err : JsErr) (hl : loadRegistry w = (.error err, w1)) :
    upsertDonor env host d now w = (.error err, w1) := by
  simp only [upsertDonor, hl]

theorem upsertDonor_of_core_error (env : Env) (host : Host) (d : Donation) (now : JsStr)
    (w w1 : World) (registry : Json) (err : JsErr) (hl : loadRegistry w = (.ok registry, w1))
    (hc : upsertRegistry env host d now registry = .error err) :
    upsertDonor env host d now w = (.error err, w1) := by
  simp only [upsertDonor, hl, hc]

theorem upsertDonor_of_core_ok (env : Env) (host : Host) (d : Donation) (now : JsStr)
    (w w1 : World) (registry reg1 : Json) (hl : loadRegistry w = (.ok registry, w1))
    (hc : upsertRegistry env host d now registry = .ok reg1) :
    upsertDonor env host d now w = saveRegistry reg1 w1 := by
  simp only [upsertDonor, hl, hc]

theorem upsertDonor_file (env : Env) (host : Host) (d : Donation) (now : JsStr) (w : World)
    (reg : Json) (hfile : w.file = some (.json reg)) :
    (upsertDonor env host d now w).2.file = some (.json reg) ∨
    (upsertDonor env host d now w).2.file = some (.json (.arr [])) ∨
    (∃ reg1, upsertRegistry env host d now reg = .ok reg1 ∧
      (upsertDonor env host d now w).2.file = some (jsonStringify reg1)) ∨
    (∃ reg1, upsertRegistry env host d now (.arr []) = .ok reg1 ∧
      (upsertDonor env host d now w).2.file = some (jsonStringify reg1)) := by
  rcases hl : loadRegistry w with ⟨r, w1⟩
  have hload := loadRegistry_file w reg hfile
  rw [hl] at hload
  cases r with
  | error err =>
    rw [upsertDonor_of_load_error env host d now w w1 err hl]
    rcases hload with ⟨h1, _⟩ | ⟨h1, _⟩ | ⟨_, h2⟩
    · exact absurd h1 (by simp)
    · exact absurd h1 (by simp)
    · exact Or.inl h2
  | ok registry =>
    rcases hload with ⟨h1, h2⟩ | ⟨h1, h2⟩ | ⟨h1, _⟩
    · simp only [Except.ok.injEq] at h1
      subst h1
      cases hc : upsertRegistry env host d now registry with
      | error err =>
        rw [upsertDonor_of_core_error env host d now w w1 registry err hl hc]
        exact Or.inl h2
      | ok reg1 =>
        rw [upsertDonor_of_core_ok env host d now w w1 registry reg1 hl hc]
        rcases (saveRegistry_file reg1 w1).2 with hs | hs
        · exact Or.inr (Or.inr (Or.inl ⟨reg1, rfl, hs⟩))
        · exact Or.inl (hs.trans h2)
    · simp only [Except.ok.injEq] at h1
      subst h1
      cases hc : upsertRegistry env host d now (.arr []) with
      | error err =>
        rw [upsertDonor_of_core_error env host d now w w1 (.arr []) err hl hc]
        exact Or.inr (Or.inl h2)
      | ok reg1 =>
        rw [upsertDonor_of_core_ok env host d now w w1 (.arr []) reg1 hl hc]
        rcases (saveRegistry_file reg1 w1).2 with hs | hs
        · exact Or.inr (Or.inr (Or.inr ⟨reg1, rfl, hs⟩))
        · exact Or.inr (Or.inl (hs.trans h2))
    · exact absurd h1 (by simp)

/-! ## Uniqueness of emails -/

theorem uniqueEmails_iff (host : Host) (ds : List Json) :
    UniqueEmails host ds ↔
      (ds.map fun a => (donorEmail a).map host.toLowerCase).Pairwise (· ≠ ·) := by
  unfold UniqueEmails
  rw [List.pairwise_map]

theorem uniqueEmails_replace (host : Host) (pre post : List Json) (x x1 : Json)
    (h : donorEmail x1 = donorEmail x) (hu : UniqueEmails host (pre ++ x :: post)) :
    UniqueEmails host (pre ++ x1 :: post) := by
  rw [uniqueEmails_iff] at hu ⊢
  simpa [h] using hu

theorem uniqueEmails_append (host : Host) (ds : List Json) (x1 : Json) (e : JsStr)
    (h : donorEmail x1 = some e)
    (hno : ∀ y ∈ ds, ∃ s, donorEmail y = some s ∧ host.toLowerCase s ≠ host.toLowerCase e)
    (hu : UniqueEmails host ds) : UniqueEmails host (ds ++ [x1]) := by
  unfold UniqueEmails at hu ⊢
  rw [List.pairwise_append]
  refine ⟨hu, List.pairwise_singleton _ _, ?_⟩
  intro a ha b hb
  rw [List.mem_singleton] at hb
  subst hb
  obtain ⟨s, hs, hne⟩ := hno a ha
  rw [hs, h]
  simpa using hne

theorem upsertRegistry_unique (env : Env) (host : Host) (d : Donation) (now e : JsStr)
    (ds : List Json) (he : d.email = some e) (hrec : ∀ y ∈ ds, isDonorRecord y = true)
    (hu : UniqueEmails host ds) :
    ∃ ds1, upsertRegistry env host d now (.arr ds) = .ok (.arr ds1) ∧
      UniqueEmails host ds1 ∧ (∀ y ∈ ds1, isDonorRecord y = true) := by
  rcases records_split host e ds hrec with hno | ⟨pre, x, post, hd, hpre, hx⟩
  · obtain ⟨x1, hres, hemail, _, _, _, _, hrec1⟩ := upsertRegistry_new env host d now e ds he hno
    refine ⟨ds ++ [x1], hres, uniqueEmails_append host ds x1 e hemail hno hu, ?_⟩
    intro y hy
    rcases List.mem_append.mp hy with h | h
    · exact hrec y h
    · rw [List.mem_singleton] at h
      rw [h]
      exact hrec1
  · subst hd
    have hxr := hrec x (by simp)
    obtain ⟨x1, hres, _, hemail, hrec1⟩ :=
      upsertRegistry_existing env host d now e pre x post he hpre hx hxr
    refine ⟨pre ++ x1 :: post, hres, uniqueEmails_replace host pre post x x1 hemail hu, ?_⟩
    intro y hy
    rcases List.mem_append.mp hy with h | h
    · exact hrec y (List.mem_append_left _ h)
    · rcases List.mem_cons.mp h with h1 | h1
      · rw [h1]
        exact hrec1
      · exact hrec y (List.mem_append_right _ (List.mem_cons_of_mem _ h1))

theorem noMatch_of_record (host : Host) (e : JsStr) (y : Json) (hrec : isDonorRecord y = true)
    (hno : ¬ matchesEmail host e y) :
    ∃ s, donorEmail y = some s ∧ host.toLowerCase s ≠ host.toLowerCase e := by
  simp only [isDonorRecord, Bool.and_eq_true, Option.isSome_iff_exists] at hrec
  obtain ⟨⟨s, hs⟩, _⟩ := hrec
  exact ⟨s, hs, fun h => hno ⟨s, hs, h⟩⟩

theorem not_matches_of_noMatch (host : Host) (e : JsStr) (y : Json)
    (h : ∃ s, donorEmail y = some s ∧ host.toLowerCase s ≠ host.toLowerCase e) :
    ¬ matchesEmail host e y := by
  obtain ⟨s, hs, hne⟩ := h
  rintro ⟨s1, hs1, heq⟩
  rw [hs] at hs1
  simp only [Option.some.injEq] at hs1
  subst hs1
  exact hne heq

/-- C5: case-insensitive uniqueness of emails is an invariant of `upsertDonor`.
For a registry file holding an array of donor records in which no two emails
are equal after lower-casing, and an input with a string email: whatever the
disk does, the file afterwards again holds an array with no two emails equal
after lower-casing. On a working disk a donor is appended exactly when no
stored email equals the input email after lower-casing (the registry written
is the loaded one followed by the new donor), and otherwise the number of
donors stays the same; so upserting an email and then one equal to it up to
case into an empty registry leaves exactly one donor. -/
theorem upsertDonor_preserves_unique_emails (env : Env) (host : Host) (d : Donation)
    (now : JsStr) (w : World) (ds : List Json) (e : JsStr)
    (hfile : w.file = some (.json (.arr ds)))
    (hrec : ∀ y ∈ ds, isDonorRecord y = true)
    (hu : UniqueEmails host ds)
    (he : d.email = some e) :
    (∃ ds1, (upsertDonor env host d now w).2.file = some (.json (.arr ds1)) ∧
      UniqueEmails host ds1) ∧
    (FsWorks w →
      ((∀ y ∈ ds, ¬ matchesEmail host e y) →
        ∃ x1, (upsertDonor env host d now w).2.file
            = some (jsonStringify (.arr (ds ++ [x1]))) ∧
          (upsertDonor env host d now w).2.file
            = some (.json (.arr (ds.map Json.stored ++ [x1.stored]))) ∧
          donorEmail x1 = some e ∧ donorEmail x1.stored = some e) ∧
      ((∃ y ∈ ds, matchesEmail host e y) →
        ∃ ds1, (upsertDonor env host d now w).2.file = some (.json (.arr ds1)) ∧
          ds1.length = ds.length)) ∧
    (FsWorks w → ds = [] →
      ∀ (d2 : Donation) (now2 e2 : JsStr), d2.email = some e2 →
        host.toLowerCase e2 = host.toLowerCase e →
        ∃ x, (upsertDonor env host d2 now2 (upsertDonor env host d now w).2).2.file
            = some (.json (.arr [x])) ∧ donorEmail x = some e) := by
  refine ⟨?_, ?_, ?_⟩
  · rcases upsertDonor_file env host d now w (.arr ds) hfile with h | h | ⟨reg1, hc, h⟩ | ⟨reg1, hc, h⟩
    · exact ⟨ds, h, hu⟩
    · exact ⟨[], h, List.Pairwise.nil⟩
    · obtain ⟨ds1, hres, hu1, _⟩ := upsertRegistry_unique env host d now e ds he hrec hu
      rw [hres] at hc
      simp only [Except.ok.injEq] at hc
      subst hc
      rw [jsonStringify_arr] at h
      exact ⟨_, h, uniqueEmails_stored host ds1 hu1⟩
    · obtain ⟨ds1, hres, hu1, _⟩ := upsertRegistry_unique env host d now e [] he
        (fun y hy => absurd hy (List.not_mem_nil y)) List.Pairwise.nil
      rw [hres] at hc
      simp only [Except.ok.injEq] at hc
      subst hc
      rw [jsonStringify_arr] at h
      exact ⟨_, h, uniqueEmails_stored host ds1 hu1⟩
  · intro hfs
    constructor
    · intro hno
      obtain ⟨x1, hres, hemail, _⟩ := upsertRegistry_new env host d now e ds he
        (fun y hy => noMatch_of_record host e y (hrec y hy) (hno y hy))
      rw [upsertDonor_works env host d now w _ _ hfs hfile hres]
      refine ⟨x1, rfl, ?_, hemail, by rw [donorEmail_stored, hemail]⟩
      show some (jsonStringify (.arr (ds ++ [x1]))) = _
      rw [jsonStringify_arr, List.map_append]
      rfl
    · rintro ⟨y, hy, hm⟩
      rcases records_split host e ds hrec with hno | ⟨pre, x, post, hd, hpre, hx⟩
      · exact absurd hm (not_matches_of_noMatch host e y (hno y hy))
      · subst hd
        obtain ⟨x1, hres, _⟩ := upsertRegistry_existing env host d now e pre x post he hpre hx
          (hrec x (by simp))
        rw [upsertDonor_works env host d now w _ _ hfs hfile hres]
        refine ⟨(pre ++ x1 :: post).map Json.stored, ?_, by simp⟩
        show some (jsonStringify (.arr (pre ++ x1 :: post))) = _
        rw [jsonStringify_arr]
  · intro hfs hnil d2 now2 e2 he2 hlow
    subst hnil
    obtain ⟨x1, hres, hemail, _, _, _, _, hrec1⟩ := upsertRegistry_new env host d now e [] he
      (fun y hy => absurd hy (List.not_mem_nil y))
    rw [upsertDonor_works env host d now w _ _ hfs hfile hres]
    have hx1 : matchesEmail host e2 x1.stored :=
      ⟨e, by rw [donorEmail_stored, hemail], hlow.symm⟩
    obtain ⟨x2, hres2, _, hemail2, _⟩ := upsertRegistry_existing env host d2 now2 e2 [] x1.stored
      [] he2 (fun y hy => absurd hy (List.not_mem_nil y)) hx1
      (by rw [isDonorRecord_stored, hrec1])
    have hf2 : (some (jsonStringify (.arr ([] ++ [x1]))) : Option FileText)
        = some (.json (.arr ([] ++ x1.stored :: []))) := by
      rw [jsonStringify_arr]
      rfl
    have h2 := upsertDonor_works env host d2 now2
      { w with file := some (jsonStringify (.arr ([] ++ [x1]))),
               fsCalls := w.fsCalls + 1 + 1 + 1 }
      _ _ hfs hf2 hres2
    show ∃ x, (upsertDonor env host d2 now2
      { w with file := some (jsonStringify (.arr ([] ++ [x1]))),
               fsCalls := w.fsCalls + 1 + 1 + 1 }).2.file
        = some (.json (.arr [x])) ∧ donorEmail x = some e
    rw [h2]
    refine ⟨x2.stored, ?_, by rw [donorEmail_stored, hemail2, donorEmail_stored, hemail]⟩
    show some (jsonStringify (.arr ([] ++ x2 :: []))) = _
    rw [jsonStringify_arr]
    rfl

/-- Upserting "A@X.com" and then "a@x.com" into an empty registry leaves one
donor, stored under the first spelling. -/
theorem upsertDonor_preserves_unique_emails_witness :
    ∃ x, (upsertDonor defaultEnv asciiHost (donationOf "a@x.com" "SM1234567891")
        (utf16 "2024-01-02T00:00:00.000Z")
        (upsertDonor defaultEnv asciiHost (donationOf "A@X.com" "SM1234567890")
          (utf16 "2024-01-01T00:00:00.000Z") (worldWith (some (.json (.arr []))))).2).2.file
        = some (.json (.arr [x])) ∧ donorEmail x = some (utf16 "A@X.com") :=
  (upsertDonor_preserves_unique_emails defaultEnv asciiHost (donationOf "A@X.com" "SM1234567890")
      (utf16 "2024-01-01T00:00:00.000Z") (worldWith (some (.json (.arr [])))) []
      (utf16 "A@X.com") rfl (fun y hy => absurd hy (List.not_mem_nil y)) List.Pairwise.nil rfl).2.2
    (fun _ => rfl) rfl (donationOf "a@x.com" "SM1234567891") (utf16 "2024-01-02T00:00:00.000Z")
    (utf16 "a@x.com") rfl (by decide)

/-! ## Donation history -/

theorem donationEvent_fields (env : Env) (d : Donation) (now : JsStr) :
    donorField (utf16 "campaign") (donationEvent env d now) = some (.str (campaignName env)) ∧
    donorField (utf16 "amount") (donationEvent env d now) = d.amount ∧
    donorField (utf16 "currency") (donationEvent env d now) = d.currency ∧
    donorField (utf16 "soulmark") (donationEvent env d now) = strVal d.soulmark ∧
    donorField (utf16 "sessionId") (donationEvent env d now) = d.sessionId ∧
    donorField (utf16 "timestamp") (donationEvent env d now) = some (.str now) := by
  obtain ⟨name, email, soulmark, amount, currency, sessionId⟩ := d
  cases amount <;> cases currency <;> cases soulmark <;> cases sessionId <;>
    exact ⟨rfl, rfl, rfl, rfl, rfl, rfl⟩

theorem donationEvent_stored_fields (env : Env) (d : Donation) (now : JsStr) :
    donorField (utf16 "amount") (donationEvent env d now).stored = d.amount.map Json.stored ∧
    donorField (utf16 "currency") (donationEvent env d now).stored
      = d.currency.map Json.stored ∧
    donorField (utf16 "soulmark") (donationEvent env d now).stored = strVal d.soulmark ∧
    donorField (utf16 "sessionId") (donationEvent env d now).stored
      = d.sessionId.map Json.stored := by
  obtain ⟨_, h2, h3, h4, h5, _⟩ := donationEvent_fields env d now
  refine ⟨?_, ?_, ?_, ?_⟩
  · rw [donorField_stored, h2]
  · rw [donorField_stored, h3]
  · rw [donorField_stored, h4]
    cases d.soulmark <;> rfl
  · rw [donorField_stored, h5]

theorem map_stored_idem (xs : List Json) :
    (xs.map Json.stored).map Json.stored = xs.map Json.stored := by
  rw [List.map_map]
  apply List.map_congr_left
  intro x _
  exact stored_idem x

theorem donations_of_stored_fixed (x : Json) (evs : List Json) (hx : x.stored = x)
    (h : donorDonations x = some evs) : evs.map Json.stored = evs := by
  have h1 := donorDonations_stored x
  rw [hx, h] at h1
  simp only [Option.map_some', Option.some.injEq] at h1
  exact h1.symm

theorem upsertAll_existing (env : Env) (host : Host) (e : JsStr)
    (calls : List (Donation × JsStr)) :
    ∀ (w : World) (pre : List Json) (x : Json) (post : List Json),
      FsWorks w → w.file = some (.json (.arr (pre ++ x :: post))) →
      pre.map Json.stored = pre → x.stored = x → post.map Json.stored = post →
      (∀ y ∈ pre, ∃ s, donorEmail y = some s ∧ host.toLowerCase s ≠ host.toLowerCase e) →
      matchesEmail host e x → isDonorRecord x = true →
      (∀ c ∈ calls, ∃ e1, c.1.email = some e1 ∧ host.toLowerCase e1 = host.toLowerCase e) →
      ∃ x1, (upsertAll env host calls w).file = some (.json (.arr (pre ++ x1 :: post))) ∧
        donorEmail x1 = donorEmail x ∧
        donorDonations x1 = (donorDonations x).map
          (fun evs => evs ++ calls.map fun c => (donationEvent env c.1 c.2).stored) := by
  induction calls with
  | nil =>
    intro w pre x post _ hfile _ _ _ _ _ _ _
    refine ⟨x, hfile, rfl, ?_⟩
    simp
  | cons c rest ih =>
    intro w pre x post hfs hfile hfpre hfx hfpost hpre hx hrec hcalls
    obtain ⟨e1, he1, hlow⟩ := hcalls c (List.mem_cons_self c rest)
    have hpre1 : ∀ y ∈ pre, ∃ s, donorEmail y = some s ∧
        host.toLowerCase s ≠ host.toLowerCase e1 := by
      intro y hy
      obtain ⟨s, hs, hne⟩ := hpre y hy
      exact ⟨s, hs, by rw [hlow]; exact hne⟩
    have hx1 : matchesEmail host e1 x := by
      obtain ⟨s, hs, heq⟩ := hx
      exact ⟨s, hs, by rw [hlow]; exact heq⟩
    obtain ⟨x2, hres, ⟨_, _, hdon, _⟩, hemail, hrec2⟩ :=
      upsertRegistry_existing env host c.1 c.2 e1 pre x post he1 hpre1 hx1 hrec
    have hstep := upsertDonor_works env host c.1 c.2 w _ _ hfs hfile hres
    have hwritten : jsonStringify (.arr (pre ++ x2 :: post))
        = .json (.arr (pre ++ x2.stored :: post)) := by
      rw [jsonStringify_arr, List.map_append, List.map_cons, hfpre, hfpost]
    have hx2 : matchesEmail host e x2.stored := by
      obtain ⟨s, hs, heq⟩ := hx
      exact ⟨s, by rw [donorEmail_stored, hemail, hs], heq⟩
    obtain ⟨x1, hfile1, hemail1, hdon1⟩ := ih
      { w with file := some (jsonStringify (.arr (pre ++ x2 :: post))),
               fsCalls := w.fsCalls + 1 + 1 + 1 }
      pre x2.stored post hfs (by rw [hwritten]) hfpre (stored_idem x2) hfpost hpre hx2
      (by rw [isDonorRecord_stored, hrec2])
      (fun c1 hc1 => hcalls c1 (List.mem_cons_of_mem c hc1))
    refine ⟨x1, ?_, ?_, ?_⟩
    · simp only [upsertAll, hstep]
      exact hfile1
    · rw [hemail1, donorEmail_stored, hemail]
    · rw [hdon1, donorDonations_stored, hdon]
      cases hd : donorDonations x with
      | none => rfl
      | some evs =>
        have hfix := donations_of_stored_fixed x evs hfx hd
        simp [hfix]

/-- C6 as stated fails: a donation whose amount is the JSON number `1e400`
passes validation and is answered 200, and after one `upsertDonor` call on a
working disk the donor's single donation event holds `null` as its amount, not
the call's amount `Infinity`. -/
theorem nonfinite_amount_is_stored_as_null :
    hugeDonation.amount = some (.num .posInf) ∧
    (donationEmailHandler defaultEnv asciiHost (utf16 "2024-01-01T00:00:00.000Z") hugeDonation
      (worldWith (some (.json (.arr []))))).1.status = 200 ∧
    ∃ donor ev,
      (upsertAll defaultEnv asciiHost [(hugeDonation, utf16 "2024-01-01T00:00:00.000Z")]
        (worldWith (some (.json (.arr []))))).file = some (.json (.arr [donor])) ∧
      donorDonations donor = some [ev] ∧
      donorField (utf16 "amount") ev = some .null ∧
      donorField (utf16 "amount") ev ≠ hugeDonation.amount := by
  refine ⟨rfl, rfl, _, _, rfl, rfl, rfl, ?_⟩
  intro h
  cases h

/-- C6, amended: `upsertDonor` never loses donation history. On a working
disk, for a registry of donors none of whose emails equals `e` after
lower-casing, after N >= 1 sequential calls whose emails equal `e` up to letter
case the registry file holds the old donors, as `JSON.stringify` writes them,
followed by the only donor matching `e`, whose donations are exactly N events
in call order, each holding its
call's amount, currency, soulmark and sessionId as `JSON.stringify` writes
them: a value without a non-finite number is held unchanged, and a non-finite
number is held as `null`. More generally one upsert on an existing donor hands
to `saveRegistry` that donor's previous donations followed by exactly one new
event, and the file then holds them as `JSON.stringify` writes them. -/
theorem upsertDonor_keeps_donation_history (env : Env) (host : Host) (w : World)
    (ds : List Json) (e : JsStr) (calls : List (Donation × JsStr))
    (hfs : FsWorks w) (hfile : w.file = some (.json (.arr ds)))
    (hno : ∀ y ∈ ds, ∃ s, donorEmail y = some s ∧ host.toLowerCase s ≠ host.toLowerCase e)
    (hcalls : ∀ c ∈ calls, ∃ e1, c.1.email = some e1 ∧
      host.toLowerCase e1 = host.toLowerCase e)
    (hN : 1 ≤ calls.length) :
    (∃ donor evs,
      (upsertAll env host calls w).file
        = some (.json (.arr (ds.map Json.stored ++ [donor]))) ∧
      matchesEmail host e donor ∧
      (∀ y ∈ ds.map Json.stored, ¬ matchesEmail host e y) ∧
      donorDonations donor = some evs ∧
      evs.length = calls.length ∧
      evs = calls.map (fun c => (donationEvent env c.1 c.2).stored) ∧
      ∀ (i : Nat) (c : Donation × JsStr), calls[i]? = some c →
        ∃ ev, evs[i]? = some ev ∧
          donorField (utf16 "amount") ev = c.1.amount.map Json.stored ∧
          donorField (utf16 "currency") ev = c.1.currency.map Json.stored ∧
          donorField (utf16 "soulmark") ev = strVal c.1.soulmark ∧
          donorField (utf16 "sessionId") ev = c.1.sessionId.map Json.stored) ∧
    ((∀ v : Json, v.allFinite = true → v.stored = v) ∧
      (Json.num .posInf).stored = .null ∧ (Json.num .negInf).stored = .null ∧
      (Json.num .nan).stored = .null) ∧
    (∀ (w1 : World) (pre : List Json) (x : Json) (post : List Json) (d : Donation)
        (now e1 : JsStr) (old : List Json),
      FsWorks w1 → w1.file = some (.json (.arr (pre ++ x :: post))) →
      (∀ y ∈ pre, ∃ s, donorEmail y = some s ∧ host.toLowerCase s ≠ host.toLowerCase e1) →
      matchesEmail host e1 x → d.email = some e1 → donorDonations x = some old →
      ∃ x1, (upsertDonor env host d now w1).2.file
          = some (jsonStringify (.arr (pre ++ x1 :: post))) ∧
        donorDonations x1 = some (old ++ [donationEvent env d now]) ∧
        (upsertDonor env host d now w1).2.file
          = some (.json (.arr (pre.map Json.stored ++ x1.stored :: post.map Json.stored))) ∧
        donorDonations x1.stored
          = some (old.map Json.stored ++ [(donationEvent env d now).stored])) := by
  refine ⟨?_, ⟨stored_of_allFinite, rfl, rfl, rfl⟩, ?_⟩
  · cases calls with
    | nil => exact absurd hN (by simp)
    | cons c rest =>
      obtain ⟨e1, he1, hlow⟩ := hcalls c (List.mem_cons_self c rest)
      have hno1 : ∀ y ∈ ds, ∃ s, donorEmail y = some s ∧
          host.toLowerCase s ≠ host.toLowerCase e1 := by
        intro y hy
        obtain ⟨s, hs, hne⟩ := hno y hy
        exact ⟨s, hs, by rw [hlow]; exact hne⟩
      obtain ⟨x1, hres, hemail, hdon, _, _, _, hrec1⟩ :=
        upsertRegistry_new env host c.1 c.2 e1 ds he1 hno1
      have hstep := upsertDonor_works env host c.1 c.2 w _ _ hfs hfile hres
      have hwritten : jsonStringify (.arr (ds ++ [x1]))
          = .json (.arr (ds.map Json.stored ++ x1.stored :: [])) := by
        rw [jsonStringify_arr, List.map_append]
        rfl
      have hnoS : ∀ y ∈ ds.map Json.stored, ∃ s, donorEmail y = some s ∧
          host.toLowerCase s ≠ host.toLowerCase e := by
        intro y hy
        obtain ⟨y0, hy0, rfl⟩ := List.mem_map.mp hy
        obtain ⟨s, hs, hne⟩ := hno y0 hy0
        exact ⟨s, by rw [donorEmail_stored, hs], hne⟩
      obtain ⟨x2, hfile2, hemail2, hdon2⟩ := upsertAll_existing env host e rest
        { w with file := some (jsonStringify (.arr (ds ++ [x1]))),
                 fsCalls := w.fsCalls + 1 + 1 + 1 }
        (ds.map Json.stored) x1.stored [] hfs (by rw [hwritten]) (map_stored_idem ds)
        (stored_idem x1) rfl hnoS
        ⟨e1, by rw [donorEmail_stored, hemail], hlow⟩
        (by rw [isDonorRecord_stored, hrec1])
        (fun c1 hc1 => hcalls c1 (List.mem_cons_of_mem c hc1))
      refine ⟨x2, (c :: rest).map (fun c => (donationEvent env c.1 c.2).stored),
        ?_, ?_, ?_, ?_, ?_, rfl, ?_⟩
      · simp only [upsertAll, hstep]
        exact hfile2
      · exact ⟨e1, by rw [hemail2, donorEmail_stored, hemail], hlow⟩
      · exact fun y hy => not_matches_of_noMatch host e y (hnoS y hy)
      · rw [hdon2, donorDonations_stored, hdon]
        rfl
      · simp
      · intro i c1 hc1
        refine ⟨(donationEvent env c1.1 c1.2).stored, ?_, ?_⟩
        · rw [List.getElem?_map, hc1]
          rfl
        · exact donationEvent_stored_fields env c1.1 c1.2
  · intro w1 pre x post d now e1 old hfs1 hfile1 hpre hx he1 hold
    have hrec : isDonorRecord x = true := by
      obtain ⟨s, hs, _⟩ := hx
      simp [isDonorRecord, hs, hold]
    obtain ⟨x1, hres, ⟨_, _, hdon, _⟩, _, _⟩ :=
      upsertRegistry_existing env host d now e1 pre x post he1 hpre hx hrec
    have hdon1 : donorDonations x1 = some (old ++ [donationEvent env d now]) := by
      rw [hdon, hold]
      rfl
    rw [upsertDonor_works env host d now w1 _ _ hfs1 hfile1 hres]
    refine ⟨x1, rfl, hdon1, ?_, ?_⟩
    · show some (jsonStringify (.arr (pre ++ x1 :: post))) = _
      rw [jsonStringify_arr, List.map_append, List.map_cons]
    · rw [donorDonations_stored, hdon1]
      simp

/-- Three donations under three spellings of one email, into an empty registry. -/
theorem upsertDonor_keeps_donation_history_witness :
    ∃ donor evs,
      (upsertAll defaultEnv asciiHost
        [(donationOf "D@x.com" "SM1234567890", utf16 "2024-01-01T00:00:00.000Z"),
         (donationOf "d@X.com" "SM1234567891", utf16 "2024-01-02T00:00:00.000Z"),
         (donationOf "d@x.com" "SM1234567892", utf16 "2024-01-03T00:00:00.000Z")]
        (worldWith (some (.json (.arr []))))).file
        = some (.json (.arr (([] : List Json).map Json.stored ++ [donor]))) ∧
      donorDonations donor = some evs ∧ evs.length = 3 :=
  have h := (upsertDonor_keeps_donation_history defaultEnv asciiHost
    (worldWith (some (.json (.arr [])))) [] (utf16 "d@x.com")
    [(donationOf "D@x.com" "SM1234567890", utf16 "2024-01-01T00:00:00.000Z"),
     (donationOf "d@X.com" "SM1234567891", utf16 "2024-01-02T00:00:00.000Z"),
     (donationOf "d@x.com" "SM1234567892", utf16 "2024-01-03T00:00:00.000Z")]
    (fun _ => rfl) rfl (fun y hy => absurd hy (List.not_mem_nil y))
    (by
      intro c hc
      simp only [List.mem_cons, List.mem_singleton, List.not_mem_nil, or_false] at hc
      rcases hc with rfl | rfl | rfl
      · exact ⟨utf16 "D@x.com", rfl, by decide⟩
      · exact ⟨utf16 "d@X.com", rfl, by decide⟩
      · exact ⟨utf16 "d@x.com", rfl, by decide⟩)
    (by decide)).1
  match h with
  | ⟨donor, evs, h1, _, _, h3, h4, _⟩ => ⟨donor, evs, h1, h3, h4⟩

/-! ## Name preservation and frame -/

/-- C7: name preservation. On a working disk, for a registry holding a donor
record that `find` returns for the input email (it matches after
lower-casing and no earlier donor does): an upsert whose name is omitted or
the empty string leaves that donor's stored name unchanged, and an upsert with
a non-empty name sets the stored name to exactly that name, both in the
registry handed to `JSON.stringify` and in the file written. The registry
written is the loaded one with that donor updated in place; when it holds no
non-finite number the file holds exactly that registry. -/
theorem upsertDonor_preserves_name (env : Env) (host : Host) (d : Donation) (now : JsStr)
    (w : World) (pre : List Json) (x : Json) (post : List Json) (e : JsStr)
    (hfs : FsWorks w) (hfile : w.file = some (.json (.arr (pre ++ x :: post))))
    (hpre : ∀ y ∈ pre, ∃ s, donorEmail y = some s ∧ host.toLowerCase s ≠ host.toLowerCase e)
    (hx : matchesEmail host e x) (hrec : isDonorRecord x = true) (he : d.email = some e) :
    ∃ x1, (upsertDonor env host d now w).2.file
        = some (jsonStringify (.arr (pre ++ x1 :: post))) ∧
      ((Json.arr (pre ++ x1 :: post)).allFinite = true →
        (upsertDonor env host d now w).2.file = some (.json (.arr (pre ++ x1 :: post)))) ∧
      ((d.name = none ∨ d.name = some (.str [])) →
        donorField (utf16 "name") x1 = donorField (utf16 "name") x) ∧
      (∀ n : JsStr, d.name = some (.str n) → n ≠ [] →
        donorField (utf16 "name") x1 = some (.str n)) ∧
      (upsertDonor env host d now w).2.file
        = some (.json (.arr (pre.map Json.stored ++ x1.stored :: post.map Json.stored))) ∧
      ((d.name = none ∨ d.name = some (.str [])) →
        donorField (utf16 "name") x1.stored = donorField (utf16 "name") x.stored) ∧
      (∀ n : JsStr, d.name = some (.str n) → n ≠ [] →
        donorField (utf16 "name") x1.stored = some (.str n)) := by
  obtain ⟨x1, hres, ⟨hname, _, _, _⟩, _, _⟩ :=
    upsertRegistry_existing env host d now e pre x post he hpre hx hrec
  rw [upsertDonor_works env host d now w _ _ hfs hfile hres]
  have hkeep : (d.name = none ∨ d.name = some (.str [])) →
      donorField (utf16 "name") x1 = donorField (utf16 "name") x := by
    intro h
    rw [hname]
    rcases h with h | h <;> rw [h] <;> rfl
  have hset : ∀ n : JsStr, d.name = some (.str n) → n ≠ [] →
      donorField (utf16 "name") x1 = some (.str n) := by
    intro n hn hne
    rw [hname, hn]
    cases n with
    | nil => exact absurd rfl hne
    | cons c cs => rfl
  refine ⟨x1, rfl, ?_, hkeep, hset, ?_, ?_, ?_⟩
  · intro hfin
    show some (jsonStringify (.arr (pre ++ x1 :: post))) = _
    rw [jsonStringify_of_allFinite _ hfin]
  · show some (jsonStringify (.arr (pre ++ x1 :: post))) = _
    rw [jsonStringify_arr, List.map_append, List.map_cons]
  · intro h
    rw [donorField_stored, donorField_stored, hkeep h]
  · intro n hn hne
    rw [donorField_stored, hset n hn hne]
    rfl

/-- A registry in which "Ann" comes after another donor: an upsert without a name keeps "Ann". -/
theorem upsertDonor_preserves_name_witness :
    ∃ x1, (upsertDonor defaultEnv asciiHost (donationOf "ANN@x.com" "SM1234567890")
        (utf16 "2024-01-02T00:00:00.000Z")
        (worldWith (some (.json (.arr ([bobRecord] ++ annRecord :: [])))))).2.file
        = some (jsonStringify (.arr ([bobRecord] ++ x1 :: []))) ∧
      donorField (utf16 "name") x1 = some (.str (utf16 "Ann")) :=
  match upsertDonor_preserves_name defaultEnv asciiHost (donationOf "ANN@x.com" "SM1234567890")
    (utf16 "2024-01-02T00:00:00.000Z")
    (worldWith (some (.json (.arr ([bobRecord] ++ annRecord :: [])))))
    [bobRecord] annRecord [] (utf16 "ANN@x.com") (fun _ => rfl) rfl
    (by
      intro y hy
      rw [List.mem_singleton] at hy
      subst hy
      exact ⟨utf16 "bob@x.com", rfl, by decide⟩)
    ⟨utf16 "ann@x.com", rfl, by decide⟩ rfl rfl with
  | ⟨x1, h1, _, h2, _⟩ => ⟨x1, h1, (h2 (Or.inl rfl)).trans rfl⟩

theorem getElem?_replace_ne (pre post : List Json) (x x1 : Json) (j : Nat)
    (hj : j ≠ pre.length) : (pre ++ x1 :: post)[j]? = (pre ++ x :: post)[j]? := by
  rcases Nat.lt_or_gt_of_ne hj with h | h
  · rw [List.getElem?_append_left h, List.getElem?_append_left h]
  · rw [List.getElem?_append_right (Nat.le_of_lt h), List.getElem?_append_right (Nat.le_of_lt h)]
    obtain ⟨k, hk⟩ : ∃ k, j - pre.length = k + 1 := ⟨j - pre.length - 1, by omega⟩
    rw [hk]
    rfl

/-- C8: frame of `upsertDonor`. On a working disk and a registry of donor
records the call completes, and the saved registry differs from the loaded one
only in the name, lastContact and donations of one donor. When no stored email
matches, the old donors are all kept in place and one donor is appended at the
end (length + 1), created with the input email and `createdAt = now`. When
`find` returns a donor, the length is unchanged, every other donor is unchanged
at its position, and the matched donor keeps its stored email, its createdAt
and every property other than name, lastContact and donations. The saved
registry is the value handed to `JSON.stringify`; the file holds it as
`JSON.stringify` writes it, and exactly it when it holds no non-finite
number. -/
theorem upsertDonor_frame (env : Env) (host : Host) (d : Donation) (now : JsStr) (w : World)
    (ds : List Json) (e : JsStr)
    (hfs : FsWorks w) (hfile : w.file = some (.json (.arr ds)))
    (hrec : ∀ y ∈ ds, isDonorRecord y = true) (he : d.email = some e) :
    (upsertDonor env host d now w).1 = .ok () ∧
    ((∀ y ∈ ds, ¬ matchesEmail host e y) →
      ∃ x1, (upsertDonor env host d now w).2.file = some (jsonStringify (.arr (ds ++ [x1]))) ∧
        ((Json.arr (ds ++ [x1])).allFinite = true →
          (upsertDonor env host d now w).2.file = some (.json (.arr (ds ++ [x1])))) ∧
        (upsertDonor env host d now w).2.file
          = some (.json (.arr (ds.map Json.stored ++ [x1.stored]))) ∧
        (ds ++ [x1]).length = ds.length + 1 ∧
        (∀ j, j < ds.length → (ds ++ [x1])[j]? = ds[j]?) ∧
        donorEmail x1 = some e ∧
        donorField (utf16 "createdAt") x1 = some (.str now) ∧
        donorField (utf16 "lastContact") x1 = some (.str now) ∧
        donorField (utf16 "name") x1 = jsOr d.name (some (.str [])) ∧
        donorDonations x1 = some [donationEvent env d now]) ∧
    (∀ (pre : List Json) (x : Json) (post : List Json), ds = pre ++ x :: post →
      (∀ y ∈ pre, ¬ matchesEmail host e y) → matchesEmail host e x →
      ∃ x1, (upsertDonor env host d now w).2.file
          = some (jsonStringify (.arr (pre ++ x1 :: post))) ∧
        ((Json.arr (pre ++ x1 :: post)).allFinite = true →
          (upsertDonor env host d now w).2.file = some (.json (.arr (pre ++ x1 :: post)))) ∧
        (upsertDonor env host d now w).2.file
          = some (.json (.arr (pre.map Json.stored ++ x1.stored :: post.map Json.stored))) ∧
        (pre ++ x1 :: post).length = ds.length ∧
        (∀ j, j ≠ pre.length → (pre ++ x1 :: post)[j]? = ds[j]?) ∧
        donorEmail x1 = donorEmail x ∧
        donorField (utf16 "createdAt") x1 = donorField (utf16 "createdAt") x ∧
        (∀ key : JsStr, key ≠ utf16 "name" → key ≠ utf16 "lastContact" →
          key ≠ utf16 "donations" → donorField key x1 = donorField key x)) := by
  refine ⟨?_, ?_, ?_⟩
  · rcases records_split host e ds hrec with hno | ⟨pre, x, post, hd, hpre, hx⟩
    · obtain ⟨x1, hres, _⟩ := upsertRegistry_new env host d now e ds he hno
      rw [upsertDonor_works env host d now w _ _ hfs hfile hres]
    · subst hd
      obtain ⟨x1, hres, _⟩ := upsertRegistry_existing env host d now e pre x post he hpre hx
        (hrec x (by simp))
      rw [upsertDonor_works env host d now w _ _ hfs hfile hres]
  · intro hno
    obtain ⟨x1, hres, hemail, hdon, hname, hcreated, hlast, _⟩ :=
      upsertRegistry_new env host d now e ds he
        (fun y hy => noMatch_of_record host e y (hrec y hy) (hno y hy))
    rw [upsertDonor_works env host d now w _ _ hfs hfile hres]
    refine ⟨x1, rfl, ?_, ?_, by simp, ?_, hemail, hcreated, hlast, hname, hdon⟩
    · intro hfin
      show some (jsonStringify (.arr (ds ++ [x1]))) = _
      rw [jsonStringify_of_allFinite _ hfin]
    · show some (jsonStringify (.arr (ds ++ [x1]))) = _
      rw [jsonStringify_arr, List.map_append]
      rfl
    · intro j hj
      exact List.getElem?_append_left hj
  · intro pre x post hd hpre hx
    subst hd
    obtain ⟨x1, hres, ⟨_, _, _, hother⟩, hemail, _⟩ :=
      upsertRegistry_existing env host d now e pre x post he
        (fun y hy => noMatch_of_record host e y (hrec y (List.mem_append_left _ hy)) (hpre y hy))
        hx (hrec x (by simp))
    rw [upsertDonor_works env host d now w _ _ hfs hfile hres]
    refine ⟨x1, rfl, ?_, ?_, by simp, ?_, hemail, ?_, hother⟩
    · intro hfin
      show some (jsonStringify (.arr (pre ++ x1 :: post))) = _
      rw [jsonStringify_of_allFinite _ hfin]
    · show some (jsonStringify (.arr (pre ++ x1 :: post))) = _
      rw [jsonStringify_arr, List.map_append, List.map_cons]
    · intro j hj
      exact getElem?_replace_ne pre post x x1 j hj
    · exact hother (utf16 "createdAt") (by decide) (by decide) (by decide)

/-- A registry of two donors: an upsert for the second leaves the first in place. -/
theorem upsertDonor_frame_witness :
    (upsertDonor defaultEnv asciiHost (donationOf "Ann@X.com" "SM1234567890")
        (utf16 "2024-01-02T00:00:00.000Z")
        (worldWith (some (.json (.arr [bobRecord, annRecord]))))).1 = .ok () ∧
    ∃ x1, (upsertDonor defaultEnv asciiHost (donationOf "Ann@X.com" "SM1234567890")
        (utf16 "2024-01-02T00:00:00.000Z")
        (worldWith (some (.json (.arr [bobRecord, annRecord]))))).2.file
        = some (jsonStringify (.arr ([bobRecord] ++ x1 :: []))) ∧
      donorEmail x1 = donorEmail annRecord :=
  have h := upsertDonor_frame defaultEnv asciiHost (donationOf "Ann@X.com" "SM1234567890")
    (utf16 "2024-01-02T00:00:00.000Z") (worldWith (some (.json (.arr [bobRecord, annRecord]))))
    [bobRecord, annRecord] (utf16 "Ann@X.com") (fun _ => rfl) rfl
    (by
      intro y hy
      simp only [List.mem_cons, List.mem_singleton, List.not_mem_nil, or_false] at hy
      rcases hy with rfl | rfl <;> rfl)
    rfl
  match h.2.2 [bobRecord] annRecord [] rfl
    (by
      intro y hy
      rw [List.mem_singleton] at hy
      subst hy
      exact not_matches_of_noMatch asciiHost _ _ ⟨utf16 "bob@x.com", rfl, by decide⟩)
    ⟨utf16 "ann@x.com", rfl, by decide⟩ with
  | ⟨x1, h1, _, _, _, _, h4, _⟩ => ⟨h.1, x1, h1, h4⟩

/-! ## Failure of `upsertDonor` -/

theorem upsertRegistry_total (env : Env) (host : Host) (d : Donation) (now e : JsStr)
    (ds : List Json) (he : d.email = some e) (hrec : ∀ y ∈ ds, isDonorRecord y = true) :
    ∃ reg1, upsertRegistry env host d now (.arr ds) = .ok reg1 := by
  rcases records_split host e ds hrec with hno | ⟨pre, x, post, hd, hpre, hx⟩
  · obtain ⟨x1, hres, _⟩ := upsertRegistry_new env host d now e ds he hno
    exact ⟨_, hres⟩
  · subst hd
    obtain ⟨x1, hres, _⟩ := upsertRegistry_existing env host d now e pre x post he hpre hx
      (hrec x (by simp))
    exact ⟨_, hres⟩

theorem loadRegistryTry_result (w : World) :
    (∃ err, (loadRegistryTry w).1 = .error err) ∨ (loadRegistryTry w).1 = .ok (.arr []) ∨
    ∃ v, w.file = some (.json v) ∧ (loadRegistryTry w).1 = .ok v := by
  unfold loadRegistryTry ensureFile
  by_cases h0 : w.fsFails w.fsCalls = true
  · simp [h0]
  · unfold readFile
    by_cases h1 : w.fsFails (w.fsCalls + 1) = true
    · simp [h0, h1, fsTick]
    · by_cases h2 : w.fsFails (w.fsCalls + 1 + 1) = true
      · cases hf : w.file with
        | none => simp [h0, h1, h2, fsTick, hf, trimIsEmpty, writeFile]
        | some text =>
          cases text <;> simp [h0, h1, h2, fsTick, hf, trimIsEmpty, writeFile, jsonParse]
      · cases hf : w.file with
        | none => simp [h0, h1, h2, fsTick, hf, trimIsEmpty, writeFile]
        | some text =>
          cases text <;> simp [h0, h1, h2, fsTick, hf, trimIsEmpty, writeFile, jsonParse]

theorem loadRegistry_result (w : World) :
    (loadRegistry w).1 = .error .ioError ∨ (loadRegistry w).1 = .ok (.arr []) ∨
    ∃ v, w.file = some (.json v) ∧ (loadRegistry w).1 = .ok v := by
  have hres := loadRegistryTry_result w
  rcases ht : loadRegistryTry w with ⟨r, w1⟩
  rw [ht] at hres
  cases r with
  | ok registry =>
    rw [loadRegistry_of_try_ok w w1 registry ht]
    rcases hres with ⟨err, h⟩ | h | h
    · exact absurd h (by simp)
    · exact Or.inr (Or.inl h)
    · exact Or.inr (Or.inr h)
  | error err =>
    rw [loadRegistry_of_try_error w w1 err ht]
    rcases loadRegistryCatch_file w1 with ⟨h, _⟩ | ⟨h, _⟩
    · exact Or.inr (Or.inl h)
    · exact Or.inl h

/-- C10 as stated fails: `upsertDonor` raises, and the handler answers 500 although
the mail has been sent, (1) on a registry file holding `{}`, (2) on a stored
donor entry without `donations`, (3) on a stored entry without `email`, and
(4) on a disk where every call fails, because the write in the `catch` block
of `loadRegistry` is outside any `try`. -/
theorem upsertDonor_raises_after_mail_sent :
    ((upsertDonor defaultEnv asciiHost (donationOf "d@x.com" "SM1234567890")
        (utf16 "2024-01-01T00:00:00.000Z") (worldWith (some (.json (.obj []))))).1
        = .error .typeError ∧
      (donationEmailHandler defaultEnv asciiHost (utf16 "2024-01-01T00:00:00.000Z")
        (donationOf "d@x.com" "SM1234567890") (worldWith (some (.json (.obj []))))).1.status
        = 500 ∧
      (donationEmailHandler defaultEnv asciiHost (utf16 "2024-01-01T00:00:00.000Z")
        (donationOf "d@x.com" "SM1234567890")
        (worldWith (some (.json (.obj []))))).2.outbox.length = 1) ∧
    (upsertDonor defaultEnv asciiHost (donationOf "d@x.com" "SM1234567890")
        (utf16 "2024-01-01T00:00:00.000Z")
        (worldWith (some (.json (.arr [.obj [(utf16 "email", .str (utf16 "d@x.com"))]]))))).1
        = .error .typeError ∧
    (upsertDonor defaultEnv asciiHost (donationOf "d@x.com" "SM1234567890")
        (utf16 "2024-01-01T00:00:00.000Z")
        (worldWith (some (.json (.arr [.obj [(utf16 "donations", .arr [])]]))))).1
        = .error .typeError ∧
    ((upsertDonor defaultEnv asciiHost (donationOf "d@x.com" "SM1234567890")
        (utf16 "2024-01-01T00:00:00.000Z") (brokenDisk (some (.json (.arr []))))).1
        = .error .ioError ∧
      (donationEmailHandler defaultEnv asciiHost (utf16 "2024-01-01T00:00:00.000Z")
        (donationOf "d@x.com" "SM1234567890") (brokenDisk (some (.json (.arr []))))).1.status
        = 500 ∧
      (donationEmailHandler defaultEnv asciiHost (utf16 "2024-01-01T00:00:00.000Z")
        (donationOf "d@x.com" "SM1234567890")
        (brokenDisk (some (.json (.arr []))))).2.outbox.length = 1) :=
  ⟨⟨rfl, rfl, rfl⟩, rfl, rfl, ⟨rfl, rfl, rfl⟩⟩

/-- C10, amended: `upsertDonor` completes without raising for every registry
file that is missing, empty, not parsable as JSON, or a JSON array of donor
records (objects with a string `email` and an array `donations`), for every
input with a string email and for every outcome of the disk calls on which
`loadRegistry` itself returns (it raises only when the write in its `catch`
block fails): failed reads are reset to `[]` and a failed write of
`saveRegistry` is swallowed. Once `sendDonationEmail` has succeeded the handler
then answers 200 with `ok: true`. -/
theorem upsertDonor_completes_when_load_returns (env : Env) (host : Host) (d : Donation)
    (now : JsStr) (w : World) (e : JsStr)
    (he : d.email = some e)
    (hfile : w.file = none ∨ w.file = some .blank ∨ w.file = some .notJson ∨
      ∃ ds, w.file = some (.json (.arr ds)) ∧ ∀ y ∈ ds, isDonorRecord y = true)
    (hload : ∀ err, (loadRegistry w).1 ≠ .error err) :
    (upsertDonor env host d now w).1 = .ok () ∧
    (∀ (w0 : World) (u : Unit) (s : JsStr), e ≠ [] → d.soulmark = some s → s ≠ [] →
      sendDonationEmail env host d w0 = (.ok u, w) →
      (donationEmailHandler env host now d w0).1.status = 200 ∧
      (donationEmailHandler env host now d w0).1.body = .obj [(utf16 "ok", .bool true)]) := by
  have hup : (upsertDonor env host d now w).1 = .ok () := by
    have hres := loadRegistry_result w
    rcases hl : loadRegistry w with ⟨r, w1⟩
    rw [hl] at hres
    have hcore : ∀ registry, r = .ok registry →
        ∃ reg1, upsertRegistry env host d now registry = .ok reg1 := by
      intro registry hr
      subst hr
      rcases hres with h | h | ⟨v, hv, h⟩
      · exact absurd h (by simp)
      · simp only [Except.ok.injEq] at h
        subst h
        exact upsertRegistry_total env host d now e [] he
          (fun y hy => absurd hy (List.not_mem_nil y))
      · simp only [Except.ok.injEq] at h
        subst h
        rcases hfile with hf | hf | hf | ⟨ds, hf, hrec⟩
        · rw [hf] at hv
          exact absurd hv (by simp)
        · rw [hf] at hv
          exact absurd hv (by simp)
        · rw [hf] at hv
          exact absurd hv (by simp)
        · rw [hf] at hv
          simp only [Option.some.injEq, FileText.json.injEq] at hv
          subst hv
          exact upsertRegistry_total env host d now e ds he hrec
    cases r with
    | error err =>
      have := hload err
      rw [hl] at this
      exact absurd rfl this
    | ok registry =>
      obtain ⟨reg1, hc⟩ := hcore registry rfl
      rw [upsertDonor_of_core_ok env host d now w w1 registry reg1 hl hc]
      exact (saveRegistry_file reg1 w1).1
  refine ⟨hup, ?_⟩
  intro w0 u s hne hsoul hs hsend
  have h1 := strTruthy_of_ne_nil d.email e he hne
  have h2 := strTruthy_of_ne_nil d.soulmark s hsoul hs
  rcases hu : upsertDonor env host d now w with ⟨r2, w2⟩
  rw [hu] at hup
  simp only at hup
  subst hup
  rw [handler_success env host now d w0 w w2 u () h1 h2 hsend hu]
  exact ⟨rfl, rfl⟩

/-- A stored registry whose read fails: `loadRegistry` resets it to `[]` and the upsert completes. -/
theorem upsertDonor_completes_when_load_returns_witness :
    (upsertDonor defaultEnv asciiHost (donationOf "d@x.com" "SM1234567890")
      (utf16 "2024-01-01T00:00:00.000Z") (flakyRead (some (.json (.arr [bobRecord]))))).1
      = .ok () :=
  (upsertDonor_completes_when_load_returns defaultEnv asciiHost
    (donationOf "d@x.com" "SM1234567890") (utf16 "2024-01-01T00:00:00.000Z")
    (flakyRead (some (.json (.arr [bobRecord])))) (utf16 "d@x.com") rfl
    (Or.inr (Or.inr (Or.inr ⟨[bobRecord], rfl, by
      intro y hy
      rw [List.mem_singleton] at hy
      subst hy
      rfl⟩)))
    (by
      have h0 : (loadRegistry (flakyRead (some (.json (.arr [bobRecord]))))).1
          = .ok (.arr []) := rfl
      intro err h
      rw [h0] at h
      cases h)).1

/-! ## Masking in the mail -/

theorem partialMark_infix_htmlTemplate (p a dash c : JsStr) : p <:+: htmlTemplate p a dash c := by
  unfold htmlTemplate
  exact ⟨_, _, by simp only [List.append_assoc]; rfl⟩

theorem linkText_infix_htmlTemplate (p a dash c : JsStr) :
    utf16 "Access Your Dashboard" <:+: htmlTemplate p a dash c := by
  have h1 : utf16 "Access Your Dashboard"
      <:+: utf16 "\">\n      <strong>Access Your Dashboard</strong>\n    </a></p>\n\n    <p>" :=
    ⟨utf16 "\">\n      <strong>", utf16 "</strong>\n    </a></p>\n\n    <p>", by decide⟩
  have h2 : utf16 "\">\n      <strong>Access Your Dashboard</strong>\n    </a></p>\n\n    <p>"
      <:+: htmlTemplate p a dash c := by
    unfold htmlTemplate
    exact (List.infix_append _ _ _).trans (List.prefix_append _ _).isInfix
  exact h1.trans h2

/-- C4 as stated fails: the validated soulmark "short" is substituted verbatim
and the html of the mail sent contains it in full. Two further soulmarks of 10
characters or more also fail: "ABCDEF…GHIJ" equals its own masked value, and
"Access Your Dashboard" occurs in full in the html, as part of the template. -/
theorem short_soulmark_is_mailed_in_full :
    (strTruthy (some (utf16 "short")) = true ∧
      getPartialSoulmark (some (utf16 "short")) = utf16 "short" ∧
      ∃ mail, (sendDonationEmail defaultEnv asciiHost (donationOf "d@x.com" "short")
          (worldWith (some (.json (.arr []))))).2.outbox = [mail] ∧
        utf16 "short" <:+: mail.html) ∧
    getPartialSoulmark (some (utf16 "ABCDEF…GHIJ")) = utf16 "ABCDEF…GHIJ" ∧
    (getPartialSoulmark (some (utf16 "Access Your Dashboard"))
        ≠ utf16 "Access Your Dashboard" ∧
      ∃ mail, (sendDonationEmail defaultEnv asciiHost
          (donationOf "d@x.com" "Access Your Dashboard")
          (worldWith (some (.json (.arr []))))).2.outbox = [mail] ∧
        utf16 "Access Your Dashboard" <:+: mail.html) := by
  refine ⟨⟨rfl, by decide, ?_⟩, by decide, by decide, ?_⟩
  · exact ⟨{ fromLabel := fromLabel defaultEnv
             toAddr := some (utf16 "d@x.com")
             subject := utf16 "Thank You — Your Donation Has Been Received"
             html := htmlTemplate (utf16 "short") [] (dashboardUrl defaultEnv)
               (campaignName defaultEnv) },
      rfl, partialMark_infix_htmlTemplate _ _ _ _⟩
  · exact ⟨{ fromLabel := fromLabel defaultEnv
             toAddr := some (utf16 "d@x.com")
             subject := utf16 "Thank You — Your Donation Has Been Received"
             html := htmlTemplate (getPartialSoulmark (some (utf16 "Access Your Dashboard"))) []
               (dashboardUrl defaultEnv) (campaignName defaultEnv) },
      rfl, linkText_infix_htmlTemplate _ _ _ _⟩

theorem sendDonationEmail_congr (env : Env) (host : Host) (d1 d2 : Donation) (w : World)
    (hmask : getPartialSoulmark d1.soulmark = getPartialSoulmark d2.soulmark)
    (hemail : d1.email = d2.email) (hamount : d1.amount = d2.amount)
    (hcurrency : d1.currency = d2.currency) :
    sendDonationEmail env host d1 w = sendDonationEmail env host d2 w := by
  simp only [sendDonationEmail, composeHtml, hmask, hemail, hamount, hcurrency]

theorem sendDonationEmail_sent (env : Env) (host : Host) (d : Donation) (w : World)
    (h : (sendDonationEmail env host d w).1 = .ok ()) :
    ∃ mail, (sendDonationEmail env host d w).2.outbox = w.outbox ++ [mail] ∧
      getPartialSoulmark d.soulmark <:+: mail.html := by
  unfold sendDonationEmail composeHtml at h ⊢
  cases ha : amountBlock host d.amount d.currency with
  | error err =>
    rw [ha] at h
    exact absurd h (by simp)
  | ok amountPart =>
    rw [ha] at h
    simp only [sendMail] at h ⊢
    by_cases hf : w.mailFails w.mailCalls = true
    · rw [if_pos hf] at h
      exact absurd h (by simp)
    · rw [if_neg hf]
      exact ⟨_, rfl, partialMark_infix_htmlTemplate _ _ _ _⟩

/-- C4, amended: for every soulmark of 10 characters or more, the mail that
`sendDonationEmail` composes and sends depends on the soulmark only through its
first 6 and last 4 characters (a request that differs only in a soulmark with
the same first 6 and last 4 characters gives the same mail), and the value
substituted into the html, `getPartialSoulmark(soulmark)`, has 11 characters
and differs from the full soulmark unless the soulmark has exactly 11
characters with "…" as its 7th. A non-empty soulmark of fewer than 10
characters is substituted verbatim, so the html of the mail sent contains it
in full. -/
theorem mail_depends_on_masked_soulmark_only (env : Env) (host : Host) (d : Donation)
    (w : World) (s : JsStr) (hs : d.soulmark = some s) (hlen : 10 ≤ s.length) :
    (∀ s2 : JsStr, 10 ≤ s2.length → s2.take 6 = s.take 6 →
      s2.drop (s2.length - 4) = s.drop (s.length - 4) →
      sendDonationEmail env host { d with soulmark := some s2 } w
        = sendDonationEmail env host d w) ∧
    (getPartialSoulmark d.soulmark).length = 11 ∧
    ((s.length ≠ 11 ∨ s[6]? ≠ some 8230) → getPartialSoulmark d.soulmark ≠ s) ∧
    (∀ t : JsStr, t ≠ [] → t.length < 10 →
      getPartialSoulmark (some t) = t ∧
      ∀ (d2 : Donation) (w2 : World), d2.soulmark = some t →
        (sendDonationEmail env host d2 w2).1 = .ok () →
        ∃ mail, (sendDonationEmail env host d2 w2).2.outbox = w2.outbox ++ [mail] ∧
          t <:+: mail.html) := by
  have hmask := getPartialSoulmark_long s hlen
  have hl : (getPartialSoulmark (some s)).length = 11 := by
    rw [hmask]
    simp
    omega
  refine ⟨?_, by rw [hs]; exact hl, ?_, ?_⟩
  · intro s2 hlen2 hfirst hlast
    apply sendDonationEmail_congr
    · show getPartialSoulmark (some s2) = getPartialSoulmark d.soulmark
      rw [hs, hmask, getPartialSoulmark_long s2 hlen2, hfirst, hlast]
    · rfl
    · rfl
    · rfl
  · intro h heq
    rw [hs] at heq
    rcases h with h | h
    · rw [heq] at hl
      exact h hl
    · apply h
      have h6 : (getPartialSoulmark (some s))[6]? = some 8230 := by
        rw [hmask]
        have ht : (s.take 6).length = 6 := by
          simp
          omega
        rw [List.append_assoc, List.getElem?_append_right (by omega), ht]
        simp
      rw [heq] at h6
      exact h6
  · intro t ht hlt
    have hshort := getPartialSoulmark_short t ht hlt
    refine ⟨hshort, ?_⟩
    intro d2 w2 hd2 hok
    obtain ⟨mail, hout, hin⟩ := sendDonationEmail_sent env host d2 w2 hok
    rw [hd2, hshort] at hin
    exact ⟨mail, hout, hin⟩

/-- Two soulmarks of 16 characters with the same first 6 and last 4 give the
same mail, and a soulmark of 5 characters is substituted as it is. -/
theorem mail_depends_on_masked_soulmark_only_witness :
    sendDonationEmail defaultEnv asciiHost
        { donationOf "d@x.com" "ABCDEFGHIJKLMNOP" with soulmark := some (utf16 "ABCDEF123456MNOP") }
        (worldWith (some (.json (.arr []))))
      = sendDonationEmail defaultEnv asciiHost (donationOf "d@x.com" "ABCDEFGHIJKLMNOP")
        (worldWith (some (.json (.arr [])))) ∧
    getPartialSoulmark (some (utf16 "ABCDEFGHIJKLMNOP")) ≠ utf16 "ABCDEFGHIJKLMNOP" ∧
    getPartialSoulmark (some (utf16 "short")) = utf16 "short" :=
  have h := mail_depends_on_masked_soulmark_only defaultEnv asciiHost
    (donationOf "d@x.com" "ABCDEFGHIJKLMNOP") (worldWith (some (.json (.arr []))))
    (utf16 "ABCDEFGHIJKLMNOP") rfl (by decide)
  ⟨h.1 (utf16 "ABCDEF123456MNOP") (by decide) (by decide) (by decide),
    h.2.2.1 (Or.inl (by decide)),
    (h.2.2.2 (utf16 "short") (by decide) (by decide)).1⟩

end EmailAssist
